import Mathlib

set_option maxHeartbeats 1000000
set_option maxRecDepth 100000

namespace Starfish

/-- Model of a two-dimensional numpy array: a shape together with the entries,
indexed (y, x).  Entries outside the bounds are irrelevant; grid equality is
always taken extensionally inside the bounds via `Grid.EqOn`. -/
structure Grid (α : Type) where
  height : Nat
  width : Nat
  data : Nat → Nat → α

/-- Extensional equality of two grids: same shape, same entries inside bounds. -/
def Grid.EqOn {α : Type} (a b : Grid α) : Prop :=
  a.height = b.height ∧ a.width = b.width ∧
    ∀ y, y < a.height → ∀ x, x < a.width → a.data y x = b.data y x

instance {α : Type} [DecidableEq α] (a b : Grid α) : Decidable (a.EqOn b) := by
  unfold Grid.EqOn
  infer_instance

/-- Model of the Python list slice l[a:b] (with 0 ≤ a ≤ b). -/
def pySlice {α : Type} (l : List α) (a b : Nat) : List α :=
  (l.drop a).take (b - a)

/-- Model of the Python error classes that the code under study raises. -/
inductive PyError where
  | typeError : PyError
  | valueError : PyError
  | keyError : PyError
  | indexError : PyError
deriving DecidableEq, Repr

/-- Model of the provenance log: an ordered sequence of processing-step records. -/
structure Log where
  entries : List String
deriving DecidableEq

/-- Embeds the per-axis max projection over axis 1 used by
BinaryMaskCollection._crop_mask: true iff row y holds a True pixel. -/
def rowHasTrue (a : Grid Bool) (y : Nat) : Bool :=
  (List.range a.width).any fun x => a.data y x

/-- Embeds the per-axis max projection over axis 0 used by
BinaryMaskCollection._crop_mask: true iff column x holds a True pixel. -/
def colHasTrue (a : Grid Bool) (x : Nat) : Bool :=
  (List.range a.height).any fun y => a.data y x

/-- Indices of the rows whose max projection is nonzero, in ascending order. -/
def nonzeroRows (a : Grid Bool) : List Nat :=
  (List.range a.height).filter (rowHasTrue a)

/-- Indices of the columns whose max projection is nonzero, in ascending order. -/
def nonzeroCols (a : Grid Bool) : List Nat :=
  (List.range a.width).filter (colHasTrue a)

/-- Embeds the slice construction of BinaryMaskCollection._crop_mask for one
axis: slice(first nonzero, last nonzero + 1), or slice(0, 0) when the
projection is everywhere zero. -/
def cropSlice (idxs : List Nat) : Nat × Nat :=
  match idxs.head?, idxs.getLast? with
  | some first, some last => (first, last + 1)
  | _, _ => (0, 0)

/-- Embeds BinaryMaskCollection._crop_mask: the per-axis selection ranges
(y-range, x-range), each a half-open interval. -/
def cropMask (a : Grid Bool) : (Nat × Nat) × (Nat × Nat) :=
  (cropSlice (nonzeroRows a), cropSlice (nonzeroCols a))

/-- Applies per-axis half-open selection ranges to a grid, as numpy basic
slicing array[y0:y1, x0:x1] does. -/
def applySlices {α : Type} (a : Grid α) (ys xs : Nat × Nat) : Grid α :=
  ⟨ys.2 - ys.1, xs.2 - xs.1, fun y x => a.data (ys.1 + y) (xs.1 + x)⟩

/-- The cropped form of a boolean mask: the tight selection applied to it. -/
def croppedGrid (a : Grid Bool) : Grid Bool :=
  applySlices a (cropMask a).1 (cropMask a).2

/-- A boolean mask is tight when it is either completely empty (both extents
zero, the shape produced by cropping an all-False array) or its first and
last row and column each hold a True pixel.  Every mask produced by the
collection's builders is tight, since they crop with _crop_mask or take the
regionprops bounding-box image. -/
def IsTight (m : Grid Bool) : Prop :=
  (m.height = 0 ∧ m.width = 0) ∨
    (0 < m.height ∧ 0 < m.width ∧
      rowHasTrue m 0 = true ∧ rowHasTrue m (m.height - 1) = true ∧
      colHasTrue m 0 = true ∧ colHasTrue m (m.width - 1) = true)

instance (m : Grid Bool) : Decidable (IsTight m) := by
  unfold IsTight
  infer_instance

/-- Modelled from the spec: `fill_from_mask` of
starfish/core/morphology/binary_mask/expand.py, which is not among the
provided source files.  Per the spec, it fills the given value into a target
image at every position of the recorded offset window where the cropped mask
holds a True pixel, leaving the rest of the image unchanged. -/
def fillFromMask {α : Type} (mask : Grid Bool) (offsets : Nat × Nat) (value : α)
    (image : Grid α) : Grid α :=
  ⟨image.height, image.width, fun y x =>
    if offsets.1 ≤ y ∧ y < offsets.1 + mask.height ∧
       offsets.2 ≤ x ∧ x < offsets.2 + mask.width ∧
       mask.data (y - offsets.1) (x - offsets.2) = true
    then value else image.data y x⟩

/-- A grid of a given shape whose entries all hold the same value, modelling
numpy.zeros of the corresponding dtype. -/
def constGrid {α : Type} (h w : Nat) (v : α) : Grid α := ⟨h, w, fun _ _ => v⟩

/-- The indicator grid of one label value of an integer label image. -/
def indicator (L : Grid Nat) (v : Nat) : Grid Bool :=
  ⟨L.height, L.width, fun y x => L.data y x == v⟩

/-- The largest value present in an integer label image (0 for an empty one). -/
def maxVal (L : Grid Nat) : Nat :=
  (List.range L.height).foldl
    (fun acc y => (List.range L.width).foldl (fun acc2 x => max acc2 (L.data y x)) acc) 0

/-- Whether a value occurs somewhere in the label image. -/
def hasLabel (L : Grid Nat) (v : Nat) : Bool :=
  (List.range L.height).any fun y => (List.range L.width).any fun x => L.data y x == v

/-- The distinct positive label values present in a label image, ascending. -/
def labelValues (L : Grid Nat) : List Nat :=
  (List.range (maxVal L + 1)).filter (fun v => v ≠ 0 && hasLabel L v)

/-- Model of one skimage.measure._RegionProperties record, limited to the
fields the code under study consumes: the label value, the bounding box
(min_y, min_x, max_y_exclusive, max_x_exclusive), the cropped binary image of
the region, and its pixel count (area). -/
structure RegionProps where
  label : Nat
  bbox : Nat × Nat × Nat × Nat
  image : Grid Bool
  area : Nat

/-- Extensional equality of two region-property records. -/
def RegionProps.EqOn (p q : RegionProps) : Prop :=
  p.label = q.label ∧ p.bbox = q.bbox ∧ p.image.EqOn q.image ∧ p.area = q.area

instance (p q : RegionProps) : Decidable (p.EqOn q) := by
  unfold RegionProps.EqOn
  infer_instance

/-- Model of the external skimage.measure.regionprops on an integer label
image, per its documented behavior: one record per distinct positive label
value, ordered by ascending label value, each carrying the tight bounding box
of that label's pixels and the binary region image cropped to that box. -/
def regionpropsModel (L : Grid Nat) : List RegionProps :=
  (labelValues L).map fun v =>
    let ind := indicator L v
    let ys := cropSlice (nonzeroRows ind)
    let xs := cropSlice (nonzeroCols ind)
    { label := v
      bbox := (ys.1, xs.1, ys.2, xs.2)
      image := applySlices ind ys xs
      area := ((List.range L.height).map fun y =>
        ((List.range L.width).filter fun x => L.data y x == v).length).sum }

/-- Embeds the MaskData dataclass of
starfish/core/morphology/binary_mask/binary_mask.py.  The cached region
properties hold either the single record computed by from_label_image, or the
full list returned by regionprops in the lazy recomputation path of
mask_regionprops (the Python attribute is dynamically typed and genuinely
holds either). -/
inductive PropsCache where
  | one : RegionProps → PropsCache
  | many : List RegionProps → PropsCache

structure MaskData where
  binary_mask : Grid Bool
  offsets : Nat × Nat
  region_properties : Option PropsCache

/-- Embeds BinaryMaskCollection of
starfish/core/morphology/binary_mask/binary_mask.py, specialized to the
two-dimensional case: the per-axis pixel and physical ticks of the uncropped
frame, the dense integer-keyed mask map (modelled as a list, index = key),
and the provenance log. -/
structure BinaryMaskCollection where
  pixel_ticks_y : List Nat
  pixel_ticks_x : List Nat
  physical_ticks_y : List Rat
  physical_ticks_x : List Rat
  masks : List MaskData
  log : Log

/-- Embeds the validation of BinaryMaskCollection.__init__: for every axis the
pixel tick array must have the same cardinality as the physical tick array
(the rank and dtype checks of the constructor cannot fail in this typed
two-dimensional embedding). -/
def BinaryMaskCollection.build (py px : List Nat) (qy qx : List Rat)
    (masks : List MaskData) (log : Log) : Except PyError BinaryMaskCollection :=
  if py.length ≠ qy.length then .error .valueError
  else if px.length ≠ qx.length then .error .valueError
  else .ok ⟨py, px, qy, qx, masks, log⟩

/-- Model of looking up an int key in the dense dict self._masks whose keys
are 0..len-1: a missing key (negative, or at least len) raises KeyError. -/
def dictGet (masks : List MaskData) (index : Int) : Option MaskData :=
  if index < 0 then none else masks.get? index.toNat

/-- Embeds the result of BinaryMaskCollection._format_mask_as_xarray: the mask
pixels plus the pixel and physical ticks sliced to the mask's window. -/
structure MaskView where
  data : Grid Bool
  pixel_ticks_y : List Nat
  pixel_ticks_x : List Nat
  physical_ticks_y : List Rat
  physical_ticks_x : List Rat

/-- Extensional equality of two mask views. -/
def MaskView.EqOn (a b : MaskView) : Prop :=
  a.data.EqOn b.data ∧ a.pixel_ticks_y = b.pixel_ticks_y ∧
    a.pixel_ticks_x = b.pixel_ticks_x ∧ a.physical_ticks_y = b.physical_ticks_y ∧
    a.physical_ticks_x = b.physical_ticks_x

instance (a b : MaskView) : Decidable (a.EqOn b) := by
  unfold MaskView.EqOn
  infer_instance

/-- Embeds BinaryMaskCollection._format_mask_as_xarray, including the dict
lookup self._masks[index] that raises KeyError on a missing key.  Each tick
array is sliced [offset : offset + extent]. -/
def BinaryMaskCollection.formatMaskAsXarray (c : BinaryMaskCollection) (index : Int) :
    Except PyError MaskView :=
  match dictGet c.masks index with
  | none => .error .keyError
  | some md =>
    .ok { data := md.binary_mask
          pixel_ticks_y :=
            pySlice c.pixel_ticks_y md.offsets.1 (md.offsets.1 + md.binary_mask.height)
          pixel_ticks_x :=
            pySlice c.pixel_ticks_x md.offsets.2 (md.offsets.2 + md.binary_mask.width)
          physical_ticks_y :=
            pySlice c.physical_ticks_y md.offsets.1 (md.offsets.1 + md.binary_mask.height)
          physical_ticks_x :=
            pySlice c.physical_ticks_x md.offsets.2 (md.offsets.2 + md.binary_mask.width) }

/-- Embeds BinaryMaskCollection.__getitem__, which delegates to
_format_mask_as_xarray. -/
def BinaryMaskCollection.getItem (c : BinaryMaskCollection) (index : Int) :
    Except PyError MaskView :=
  c.formatMaskAsXarray index

/-- The uncropped frame shape of the collection: the tick array lengths. -/
def BinaryMaskCollection.uncroppedShape (c : BinaryMaskCollection) : Nat × Nat :=
  (c.pixel_ticks_y.length, c.pixel_ticks_x.length)

/-- Embeds BinaryMaskCollection.uncropped_mask: after the dict lookup, if the
cropped mask already spans the full frame, delegate to
_format_mask_as_xarray; otherwise fill the mask into a False-initialized
full-frame image at the recorded offsets and return it with the full ticks. -/
def BinaryMaskCollection.uncroppedMask (c : BinaryMaskCollection) (index : Int) :
    Except PyError MaskView :=
  match dictGet c.masks index with
  | none => .error .keyError
  | some md =>
    if c.uncroppedShape = (md.binary_mask.height, md.binary_mask.width) then
      c.formatMaskAsXarray index
    else
      .ok { data := fillFromMask md.binary_mask md.offsets true
              (constGrid c.uncroppedShape.1 c.uncroppedShape.2 false)
            pixel_ticks_y := c.pixel_ticks_y
            pixel_ticks_x := c.pixel_ticks_x
            physical_ticks_y := c.physical_ticks_y
            physical_ticks_x := c.physical_ticks_x }

/-- Embeds BinaryMaskCollection.mask_regionprops, threading the only mutable
state of the class (the lazily populated per-mask cache) explicitly: the
result is the returned properties together with the updated collection.  On a
cache miss the code recreates a full-frame label image holding just this mask
painted with the value mask_id + 1 (stored in a numpy uint32 array, hence
reduced modulo 2 to the 32nd), runs regionprops on it, and caches that
result. -/
def BinaryMaskCollection.maskRegionprops (c : BinaryMaskCollection) (mask_id : Int) :
    Except PyError (PropsCache × BinaryMaskCollection) :=
  match dictGet c.masks mask_id with
  | none => .error .keyError
  | some md =>
    match md.region_properties with
    | some props => .ok (props, c)
    | none =>
      let image : Grid Nat :=
        fillFromMask md.binary_mask md.offsets ((mask_id.toNat + 1) % 2 ^ 32)
          (constGrid c.uncroppedShape.1 c.uncroppedShape.2 0)
      let props : PropsCache := .many (regionpropsModel image)
      let cachedMd : MaskData := { md with region_properties := some props }
      .ok (props, { c with masks := c.masks.set mask_id.toNat cachedMd })

/-- Modelled from the spec: the LabelImage container of
starfish/core/morphology/label_image, which is not among the provided source
files.  Per the spec it is an integer-labeled raster carrying per-axis pixel
and physical coordinate ticks plus a provenance log, immutable after a
one-time validation at construction. -/
structure LabelImage where
  array : Grid Nat
  pixel_ticks_y : List Nat
  pixel_ticks_x : List Nat
  physical_ticks_y : List Rat
  physical_ticks_x : List Rat
  log : Log

/-- Modelled from the spec: LabelImage.from_label_array_and_ticks validation,
which fails with a value error when a physical tick array's length disagrees
with the array extent on its axis, and synthesizes missing pixel ticks as
0..extent-1. -/
def LabelImage.fromLabelArrayAndTicks (arr : Grid Nat)
    (py? px? : Option (List Nat)) (qy qx : List Rat) (log : Log) :
    Except PyError LabelImage :=
  if qy.length ≠ arr.height then .error .valueError
  else if qx.length ≠ arr.width then .error .valueError
  else .ok ⟨arr, py?.getD (List.range arr.height), px?.getD (List.range arr.width),
    qy, qx, log⟩

/-- Embeds BinaryMaskCollection.from_label_image: run regionprops on the label
array, keep the ticks of the label image, and build one MaskData per region
from its cropped image and the leading half of its bounding box (the per-axis
start offsets), caching the region's properties record. -/
def BinaryMaskCollection.fromLabelImage (li : LabelImage) :
    Except PyError BinaryMaskCollection :=
  let props := regionpropsModel li.array
  let masks := props.map fun p =>
    MaskData.mk p.image (p.bbox.1, p.bbox.2.1) (some (.one p))
  BinaryMaskCollection.build li.pixel_ticks_y li.pixel_ticks_x
    li.physical_ticks_y li.physical_ticks_x masks li.log

/-- Embeds BinaryMaskCollection.to_label_image: paint mask ix with the value
ix + 1 in ascending index order into a zero-initialized full-frame raster of
dtype numpy uint16 (values therefore reduced modulo 2 to the 16th), then wrap
it as a LabelImage with the collection's ticks and log. -/
def BinaryMaskCollection.toLabelImage (c : BinaryMaskCollection) :
    Except PyError LabelImage :=
  let arr : Grid Nat :=
    c.masks.enum.foldl
      (fun img p => fillFromMask p.2.binary_mask p.2.offsets ((p.1 + 1) % 2 ^ 16) img)
      (constGrid c.uncroppedShape.1 c.uncroppedShape.2 0)
  LabelImage.fromLabelArrayAndTicks arr (some c.pixel_ticks_y) (some c.pixel_ticks_x)
    c.physical_ticks_y c.physical_ticks_x c.log

/-- Model of a numpy dtype tag, as far as the validations under study need. -/
inductive DType where
  | bool : DType
  | int32 : DType
  | uint16 : DType
  | uint32 : DType
  | float32 : DType
deriving DecidableEq

/-- Model of a two-dimensional numpy array input of arbitrary dtype, as
received by BinaryMaskCollection.from_binary_arrays_and_ticks.  Only the
boolean reading of the entries matters once the dtype check has passed. -/
structure PyArray where
  dtype : DType
  height : Nat
  width : Nat
  entry : Nat → Nat → Nat

/-- The boolean reading of a PyArray (entry nonzero). -/
def PyArray.toGrid (a : PyArray) : Grid Bool :=
  ⟨a.height, a.width, fun y x => a.entry y x ≠ 0⟩

/-- Whether all arrays in the sequence share one shape (len(set(shapes)) <= 1). -/
def allSameShape (arrays : List PyArray) : Bool :=
  match arrays with
  | [] => true
  | a :: rest => rest.all fun b => b.height == a.height && b.width == a.width

/-- Embeds BinaryMaskCollection.from_binary_arrays_and_ticks, preserving the
order of its validations: first the shape uniformity check (ValueError), then
the dtype check (TypeError), then — when at least one array is present — the
physical coordinate presence count check and the per-axis physical tick
length check (ValueError), before missing pixel ticks are synthesized as
0..extent-1, every array is cropped to its tight bounding box with the slice
starts recorded as offsets, and the constructor validation runs. -/
def BinaryMaskCollection.fromBinaryArraysAndTicks (arrays : List PyArray)
    (py? px? : Option (List Nat)) (qy? qx? : Option (List Rat)) (log : Log) :
    Except PyError BinaryMaskCollection :=
  if allSameShape arrays = false then .error .valueError
  else if arrays.any (fun a => a.dtype ≠ .bool) then .error .typeError
  else
    let coordCount := (if qy?.isSome then 1 else 0) + (if qx?.isSome then 1 else 0)
    let qy := qy?.getD []
    let qx := qx?.getD []
    let py := py?.getD (List.range qy.length)
    let px := px?.getD (List.range qx.length)
    if arrays.isEmpty then
      BinaryMaskCollection.build py px qy qx [] log
    else
      let a0 := arrays.headD ⟨.bool, 0, 0, fun _ _ => 0⟩
      if coordCount ≠ 2 then .error .valueError
      else if qy.length ≠ a0.height then .error .valueError
      else if qx.length ≠ a0.width then .error .valueError
      else
        let masks := arrays.map fun a =>
          let g := a.toGrid
          let sel := cropMask g
          MaskData.mk (applySlices g sel.1 sel.2) (sel.1.1, sel.2.1) none
        BinaryMaskCollection.build py px qy qx masks log

/-- Modelled from the spec: the archive format written by
BinaryMaskCollection.to_targz through the _io module, which is not among the
provided source files.  Per the spec the archive is a self-contained package
holding every cropped mask array, its per-mask integer offsets, the shared
pixel and physical ticks, the provenance log, and a format version tag. -/
structure MaskArchive where
  version : Nat
  mask_arrays : List (Grid Bool)
  offsets : List (Nat × Nat)
  pixel_ticks_y : List Nat
  pixel_ticks_x : List Nat
  physical_ticks_y : List Rat
  physical_ticks_x : List Rat
  log : Log

/-- Modelled from the spec: BinaryMaskCollection.to_targz writes the masks,
offsets, ticks and log into the versioned archive.  Region properties are not
serialized. -/
def BinaryMaskCollection.toTargz (c : BinaryMaskCollection) : MaskArchive :=
  { version := 1
    mask_arrays := c.masks.map (·.binary_mask)
    offsets := c.masks.map (·.offsets)
    pixel_ticks_y := c.pixel_ticks_y
    pixel_ticks_x := c.pixel_ticks_x
    physical_ticks_y := c.physical_ticks_y
    physical_ticks_x := c.physical_ticks_x
    log := c.log }

/-- Modelled from the spec: BinaryMaskCollection.open_targz rebuilds the
collection from the archive; restored masks carry no cached region
properties, which are recomputable on demand. -/
def BinaryMaskCollection.openTargz (a : MaskArchive) : BinaryMaskCollection :=
  { pixel_ticks_y := a.pixel_ticks_y
    pixel_ticks_x := a.pixel_ticks_x
    physical_ticks_y := a.physical_ticks_y
    physical_ticks_x := a.physical_ticks_x
    masks := (a.mask_arrays.zip a.offsets).map fun p => MaskData.mk p.1 p.2 none
    log := a.log }

/-- Modelled from the spec: the Area value type of starfish/util/overlap_utils.py,
which is not among the provided source files.  An axis-aligned rectangle of
physical space given by its per-axis closed coordinate ranges. -/
structure Area where
  min_x : Rat
  max_x : Rat
  min_y : Rat
  max_y : Rat
deriving DecidableEq

/-- Modelled from the spec: the pairwise rectangle overlap test of
overlap_utils.  Two Areas intersect iff their projections onto X and onto Y
both overlap as closed intervals; the boundary semantics (a shared edge
counts as an overlap, producing a degenerate intersection) is pinned by the
repository test test_find_overlaps_of_xarrays, whose expected overlap of
tables 0 and 3 is the degenerate Area(0, 1, 1, 1). -/
def Area.intersects (a b : Area) : Bool :=
  !(a.max_x < b.min_x) && !(a.min_x > b.max_x) &&
    !(a.max_y < b.min_y) && !(a.min_y > b.max_y)

/-- Modelled from the spec: Area.find_intersection returns the Area covering
the overlap of the two rectangles, or none when they do not overlap on both
axes. -/
def Area.findIntersection (a b : Area) : Option Area :=
  if a.intersects b then
    some ⟨max a.min_x b.min_x, min a.max_x b.max_x,
          max a.min_y b.min_y, min a.max_y b.max_y⟩
  else none

/-- Model of one decoded feature-table row, reduced to the physical
coordinates that overlap processing inspects plus an opaque payload standing
for the remaining columns. -/
structure TableRow where
  xc : Rat
  yc : Rat
  payload : Nat
deriving DecidableEq

/-- The bounding Area of a table, from the min and max of its physical
coordinates; none for an empty table. -/
def tableArea : List TableRow → Option Area
  | [] => none
  | r :: rest => some (rest.foldl
      (fun a s => ⟨min a.min_x s.xc, max a.max_x s.xc, min a.min_y s.yc, max a.max_y s.yc⟩)
      ⟨r.xc, r.xc, r.yc, r.yc⟩)

/-- Whether a row's coordinates lie strictly inside an Area. -/
def strictlyInside (a : Area) (r : TableRow) : Bool :=
  a.min_x < r.xc && r.xc < a.max_x && a.min_y < r.yc && r.yc < a.max_y

/-- Modelled from the spec: sel_area_of_xarray of overlap_utils keeps exactly
the rows whose coordinates lie strictly inside the area. -/
def selAreaOfTable (t : List TableRow) (a : Area) : List TableRow :=
  t.filter (strictlyInside a)

/-- Modelled from the spec: remove_area_of_xarray of overlap_utils keeps
exactly the rows whose coordinates do not lie strictly inside the area (rows
on the boundary are kept); this boundary semantics is pinned by the
repository test test_take_max, whose expected concatenated size of 26 keeps
the boundary row of the losing table. -/
def removeAreaOfTable (t : List TableRow) (a : Area) : List TableRow :=
  t.filter fun r => !(strictlyInside a r)

/-- Modelled from the spec: the take-max overlap policy.  The table holding
at least as many rows in the overlap region is the higher-priority table and
keeps all its rows; the rows of the other table inside the overlap region are
removed. -/
def takeMax (ov : Area) (t1 t2 : List TableRow) : List TableRow × List TableRow :=
  if (selAreaOfTable t2 ov).length ≤ (selAreaOfTable t1 ov).length then
    (t1, removeAreaOfTable t2 ov)
  else
    (removeAreaOfTable t1 ov, t2)

/-- Every unordered index pair (i, j) with i < j < n, each reported once. -/
def pairIndices (n : Nat) : List (Nat × Nat) :=
  ((List.range n).map fun i =>
    (List.range n).filterMap fun j => if i < j then some (i, j) else none).flatten

/-- Modelled from the spec: overlap processing under the take-max policy.
Every pairwise combination of tables whose bounding areas intersect is
reconciled in pair order by the take-max policy, updating the table list in
place. -/
def processOverlapsTakeMax (tables : List (List TableRow)) : List (List TableRow) :=
  (pairIndices tables.length).foldl
    (fun ts p =>
      let t1 := ts.getD p.1 []
      let t2 := ts.getD p.2 []
      match tableArea t1, tableArea t2 with
      | some a1, some a2 =>
        match Area.findIntersection a1 a2 with
        | some ov =>
          let r := takeMax ov t1 t2
          (ts.set p.1 r.1).set p.2 r.2
        | none => ts
      | _, _ => ts)
    tables

/-- Modelled from the spec: concatenation of feature tables, optionally
reconciling overlapping physical regions first, then appending every
surviving row of every table. -/
def concatenateTables (tables : List (List TableRow)) (processOverlaps : Bool) :
    List TableRow :=
  (if processOverlaps then processOverlapsTakeMax tables else tables).flatten

/-- Modelled from the spec: one input unit of the pixel/continuous decoder, a
connected pixel cluster (or a single pre-extracted spot) carrying its
intensity vector over (round, channel) pairs and its member pixels.  The
cluster's area is its member pixel count. -/
structure PixelCluster where
  vector : List Rat
  pixels : List (Nat × Nat)

/-- Modelled from the spec: the pixel decoder's threshold configuration. -/
structure PixelDecoderParams where
  distance_threshold : Rat
  magnitude_threshold : Rat
  min_area : Nat
  max_area : Nat

/-- Modelled from the spec: decoder construction fails with a value error when
the area thresholds are not well-ordered. -/
def mkPixelDecoderParams (dt mt : Rat) (mina maxa : Nat) :
    Except PyError PixelDecoderParams :=
  if mina > maxa then .error .valueError else .ok ⟨dt, mt, mina, maxa⟩

/-- Modelled from the spec: the nearest-codeword search of the continuous
decoder.  The distance metric is pluggable; any normalization the decoder
prescribes is folded into the supplied metric.  Ties keep the earliest
codeword, matching a deterministic argmin. -/
def nearestCode (metric : List Rat → List Rat → Rat)
    (codes : List (String × List Rat)) (v : List Rat) : Option (String × Rat) :=
  match codes with
  | [] => none
  | c :: rest =>
    match nearestCode metric rest v with
    | none => some (c.1, metric v c.2)
    | some bd => if metric v c.2 ≤ bd.2 then some (c.1, metric v c.2) else some bd

/-- Modelled from the spec: one output row of the pixel decoder. -/
structure DecodedDetection where
  target : String
  distance : Rat
  magnitude : Rat
  area : Nat
  passes_thresholds : Bool
deriving DecidableEq

/-- Modelled from the spec: decoding of one cluster.  The nearest codeword's
target is the candidate decode; the detection passes the thresholds iff the
nearest distance is at most distance_threshold, the magnitude is at least
magnitude_threshold, and the area lies within the inclusive range min_area to
max_area.  A cluster with no codeword at all (empty codebook) is the no-call
sentinel with passes_thresholds false; no cluster is ever dropped. -/
def decodeCluster (metric : List Rat → List Rat → Rat) (norm : List Rat → Rat)
    (codes : List (String × List Rat)) (params : PixelDecoderParams)
    (cl : PixelCluster) : DecodedDetection :=
  let mag := norm cl.vector
  let area := cl.pixels.length
  match nearestCode metric codes cl.vector with
  | some td =>
    { target := td.1
      distance := td.2
      magnitude := mag
      area := area
      passes_thresholds :=
        decide (td.2 ≤ params.distance_threshold) &&
        decide (params.magnitude_threshold ≤ mag) &&
        decide (params.min_area ≤ area) && decide (area ≤ params.max_area) }
  | none =>
    { target := "nan"
      distance := 0
      magnitude := mag
      area := area
      passes_thresholds := false }

/-- Modelled from the spec: the whole-pixel decode maps every cluster to one
output row, preserving order and never raising on lookup misses. -/
def decodeClusters (metric : List Rat → List Rat → Rat) (norm : List Rat → Rat)
    (codes : List (String × List Rat)) (params : PixelDecoderParams)
    (clusters : List PixelCluster) : List DecodedDetection :=
  clusters.map (decodeCluster metric norm codes params)

/-- Whether painting a mask at its offsets writes to the pixel (y, x): the
pixel lies in the offset window and the mask holds True there. -/
def MaskData.Covers (md : MaskData) (y x : Nat) : Prop :=
  md.offsets.1 ≤ y ∧ y < md.offsets.1 + md.binary_mask.height ∧
    md.offsets.2 ≤ x ∧ x < md.offsets.2 + md.binary_mask.width ∧
    md.binary_mask.data (y - md.offsets.1) (x - md.offsets.2) = true

instance (md : MaskData) (y x : Nat) : Decidable (md.Covers y x) := by
  unfold MaskData.Covers
  infer_instance

/-- The full-frame painting of one mask of a collection: the cropped mask
filled as True into a False-initialized array of the collection's full shape
at the recorded offsets (the definition of the uncropped form). -/
def paintedFullFrame (c : BinaryMaskCollection) (md : MaskData) : Grid Bool :=
  fillFromMask md.binary_mask md.offsets true
    (constGrid c.uncroppedShape.1 c.uncroppedShape.2 false)

/-- Re-crops a full-frame boolean array to its tight bounding box and slices
the collection's ticks accordingly, yielding the cropped view that the
crop/uncrop round trip should reproduce. -/
def recropView (c : BinaryMaskCollection) (g : Grid Bool) : MaskView :=
  { data := applySlices g (cropMask g).1 (cropMask g).2
    pixel_ticks_y := pySlice c.pixel_ticks_y (cropMask g).1.1 (cropMask g).1.2
    pixel_ticks_x := pySlice c.pixel_ticks_x (cropMask g).2.1 (cropMask g).2.2
    physical_ticks_y := pySlice c.physical_ticks_y (cropMask g).1.1 (cropMask g).1.2
    physical_ticks_x := pySlice c.physical_ticks_x (cropMask g).2.1 (cropMask g).2.2 }

/-- The painting fold of BinaryMaskCollection.to_label_image, generalized to
an arbitrary list of (index, mask) pairs: each pair paints its mask with the
value index + 1 reduced modulo 2 to the 16th (the uint16 dtype of the target
raster), later pairs overwriting earlier ones. -/
def foldPaint (pairs : List (Nat × MaskData)) (base : Grid Nat) : Grid Nat :=
  pairs.foldl
    (fun img p => fillFromMask p.2.binary_mask p.2.offsets ((p.1 + 1) % 2 ^ 16) img)
    base

/-- The region-properties record of one label value: tight bounding box and
cropped region image of the label's indicator. -/
def propOfLabel (L : Grid Nat) (v : Nat) : RegionProps :=
  { label := v
    bbox := ((cropMask (indicator L v)).1.1, (cropMask (indicator L v)).2.1,
      (cropMask (indicator L v)).1.2, (cropMask (indicator L v)).2.2)
    image := croppedGrid (indicator L v)
    area := ((List.range L.height).map fun y =>
      ((List.range L.width).filter fun x => L.data y x == v).length).sum }

/-- The MaskData that from_label_image builds for one label value. -/
def maskOfLabel (L : Grid Nat) (v : Nat) : MaskData :=
  MaskData.mk (propOfLabel L v).image
    ((propOfLabel L v).bbox.1, (propOfLabel L v).bbox.2.1)
    (some (.one (propOfLabel L v)))

/-- The mask list that from_label_image builds from a label array. -/
def labelMasks (L : Grid Nat) : List MaskData :=
  (regionpropsModel L).map fun p =>
    MaskData.mk p.image (p.bbox.1, p.bbox.2.1) (some (.one p))

/-- A small concrete mask: one row of three pixels, True at both ends. -/
def sampleMask0 : MaskData := ⟨⟨1, 3, fun _ x => x == 0 || x == 2⟩, (0, 0), none⟩

/-- A small concrete mask: a single True pixel offset to (1, 2). -/
def sampleMask1 : MaskData := ⟨⟨1, 1, fun _ _ => true⟩, (1, 2), none⟩

/-- A small concrete two-mask collection over a 2 by 3 frame. -/
def sampleCollection : BinaryMaskCollection :=
  { pixel_ticks_y := [0, 1]
    pixel_ticks_x := [0, 1, 2]
    physical_ticks_y := [12, 24]
    physical_ticks_x := [72, 84, 96]
    masks := [sampleMask0, sampleMask1]
    log := ⟨[]⟩ }

/-- The label image of the repository's binary-mask tests: a 5 by 5 raster
with label 1 on row 0, label 2 on the block rows 3..4 by cols 3..4 except the
corner (4, 4), everything else background. -/
def testLabelGrid : Grid Nat :=
  ⟨5, 5, fun y x =>
    if y == 0 then 1
    else if (y == 3 || y == 4) && (x == 3 || x == 4) && !(y == 4 && x == 4) then 2
    else 0⟩

/-- The test label image wrapped with the test's coordinate ticks. -/
def testLabelImage : LabelImage :=
  { array := testLabelGrid
    pixel_ticks_y := [0, 1, 2, 3, 4]
    pixel_ticks_x := [0, 1, 2, 3, 4]
    physical_ticks_y := [12, 24, 36, 48, 60]
    physical_ticks_x := [72, 84, 96, 108, 120]
    log := ⟨[]⟩ }

/-- A label image holding one single-pixel label for every value 1..65536, in
one column of 65536 rows. -/
def bigLabelGrid : Grid Nat := ⟨65536, 1, fun y _ => y + 1⟩

/-- The 65536-label image wrapped with matching ticks. -/
def bigLabelImage : LabelImage :=
  { array := bigLabelGrid
    pixel_ticks_y := List.range 65536
    pixel_ticks_x := [0]
    physical_ticks_y := List.replicate 65536 (0 : Rat)
    physical_ticks_x := [0]
    log := ⟨[]⟩ }

/-- The first table of the repository's take-max test, its coordinates scaled
by 171 to stay integral: ten rows on the diagonal from (0, 0) to (342, 342),
the image of ten evenly spaced rows from (0, 0) to (2, 2). -/
def tableA : List TableRow :=
  (List.range 10).map fun (i : Nat) => ⟨((38 * i : Nat) : Rat), ((38 * i : Nat) : Rat), i⟩

/-- The second table of the repository's take-max test, scaled by 171:
twenty rows from (171, 171) to (342, 513), the image of twenty evenly spaced
rows from (1, 1) to (2, 3). -/
def tableB : List TableRow :=
  (List.range 20).map fun (i : Nat) =>
    ⟨((171 + 9 * i : Nat) : Rat), ((171 + 18 * i : Nat) : Rat), 100 + i⟩

section Lemmas

theorem Grid.EqOn.refl {α : Type} (a : Grid α) : a.EqOn a :=
  ⟨rfl, rfl, fun _ _ _ _ => rfl⟩

theorem mem_nonzeroRows {a : Grid Bool} {y : Nat} :
    y ∈ nonzeroRows a ↔ y < a.height ∧ rowHasTrue a y = true := by
  simp [nonzeroRows, List.mem_filter, List.mem_range]

theorem mem_nonzeroCols {a : Grid Bool} {x : Nat} :
    x ∈ nonzeroCols a ↔ x < a.width ∧ colHasTrue a x = true := by
  simp [nonzeroCols, List.mem_filter, List.mem_range]

theorem nonzeroRows_pairwise (a : Grid Bool) : (nonzeroRows a).Pairwise (· < ·) :=
  (List.pairwise_lt_range a.height).filter _

theorem nonzeroCols_pairwise (a : Grid Bool) : (nonzeroCols a).Pairwise (· < ·) :=
  (List.pairwise_lt_range a.width).filter _

theorem rowHasTrue_iff {a : Grid Bool} {y : Nat} :
    rowHasTrue a y = true ↔ ∃ x, x < a.width ∧ a.data y x = true := by
  simp [rowHasTrue, List.any_eq_true, List.mem_range]

theorem colHasTrue_iff {a : Grid Bool} {x : Nat} :
    colHasTrue a x = true ↔ ∃ y, y < a.height ∧ a.data y x = true := by
  simp [colHasTrue, List.any_eq_true, List.mem_range]

theorem head?_le_of_pairwise {l : List Nat} (hp : l.Pairwise (· < ·)) {a : Nat}
    (ha : l.head? = some a) : ∀ y ∈ l, a ≤ y := by
  cases l with
  | nil => simp at ha
  | cons b t =>
    simp only [List.head?_cons, Option.some.injEq] at ha
    subst ha
    intro y hy
    rcases List.mem_cons.mp hy with rfl | hyt
    · exact Nat.le_refl _
    · exact Nat.le_of_lt ((List.pairwise_cons.mp hp).1 y hyt)

theorem le_getLast?_of_pairwise {l : List Nat} (hp : l.Pairwise (· < ·)) {b : Nat}
    (hb : l.getLast? = some b) : ∀ y ∈ l, y ≤ b := by
  induction l with
  | nil => simp at hb
  | cons c t ih =>
    cases t with
    | nil =>
      simp only [List.getLast?_singleton, Option.some.injEq] at hb
      subst hb
      intro y hy
      simp only [List.mem_singleton] at hy
      subst hy
      exact Nat.le_refl _
    | cons d t2 =>
      rw [List.getLast?_cons_cons] at hb
      have hrest := ih (List.pairwise_cons.mp hp).2 hb
      intro y hy
      rcases List.mem_cons.mp hy with rfl | hyt
      · calc y ≤ d := Nat.le_of_lt ((List.pairwise_cons.mp hp).1 d (List.mem_cons_self _ _))
             _ ≤ b := hrest d (List.mem_cons_self _ _)
      · exact hrest y hyt

theorem head?_eq_of_pairwise {l : List Nat} (hp : l.Pairwise (· < ·)) {a : Nat}
    (ha : a ∈ l) (hmin : ∀ y ∈ l, a ≤ y) : l.head? = some a := by
  cases hl : l.head? with
  | none =>
    rw [List.head?_eq_none_iff] at hl
    subst hl
    simp at ha
  | some h0 =>
    have h0mem : h0 ∈ l := List.mem_of_mem_head? (by rw [hl]; rfl)
    have h1 : a ≤ h0 := hmin h0 h0mem
    have h2 : h0 ≤ a := head?_le_of_pairwise hp hl a ha
    rw [Nat.le_antisymm h2 h1]

theorem getLast?_eq_of_pairwise {l : List Nat} (hp : l.Pairwise (· < ·)) {b : Nat}
    (hb : b ∈ l) (hmax : ∀ y ∈ l, y ≤ b) : l.getLast? = some b := by
  cases hl : l.getLast? with
  | none =>
    rw [List.getLast?_eq_none_iff] at hl
    subst hl
    simp at hb
  | some b0 =>
    have hb0mem : b0 ∈ l := by
      rcases List.mem_getLast?_eq_getLast (l := l) (x := b0) (by simp [hl]) with ⟨hne, rfl⟩
      exact List.getLast_mem hne
    have h1 : b0 ≤ b := hmax b0 hb0mem
    have h2 : b ≤ b0 := le_getLast?_of_pairwise hp hl b hb
    rw [Nat.le_antisymm h2 h1]

theorem cropSlice_eq_of_ne_nil {l : List Nat} (hne : l ≠ []) :
    cropSlice l = (l.head hne, l.getLast hne + 1) := by
  unfold cropSlice
  rw [List.head?_eq_head hne, List.getLast?_eq_getLast_of_ne_nil hne]

theorem cropSlice_bounds {l : List Nat} (hp : l.Pairwise (· < ·)) {y : Nat} (hy : y ∈ l) :
    (cropSlice l).1 ≤ y ∧ y < (cropSlice l).2 := by
  have hne := List.ne_nil_of_mem hy
  rw [cropSlice_eq_of_ne_nil hne]
  constructor
  · exact head?_le_of_pairwise hp (List.head?_eq_head hne) y hy
  · exact Nat.lt_succ_of_le
      (le_getLast?_of_pairwise hp (List.getLast?_eq_getLast_of_ne_nil hne) y hy)

theorem cropSlice_ends_mem {l : List Nat} (hne : l ≠ []) :
    (cropSlice l).1 ∈ l ∧ (cropSlice l).2 - 1 ∈ l ∧ 0 < (cropSlice l).2 := by
  rw [cropSlice_eq_of_ne_nil hne]
  refine ⟨List.head_mem hne, ?_, Nat.succ_pos _⟩
  simp only [Nat.add_sub_cancel]
  exact List.getLast_mem hne

theorem crop_contains {a : Grid Bool} {y x : Nat} (hy : y < a.height) (hx : x < a.width)
    (h : a.data y x = true) :
    (cropMask a).1.1 ≤ y ∧ y < (cropMask a).1.2 ∧
      (cropMask a).2.1 ≤ x ∧ x < (cropMask a).2.2 := by
  have hrow : y ∈ nonzeroRows a := mem_nonzeroRows.mpr ⟨hy, rowHasTrue_iff.mpr ⟨x, hx, h⟩⟩
  have hcol : x ∈ nonzeroCols a := mem_nonzeroCols.mpr ⟨hx, colHasTrue_iff.mpr ⟨y, hy, h⟩⟩
  obtain ⟨h1, h2⟩ := cropSlice_bounds (nonzeroRows_pairwise a) hrow
  obtain ⟨h3, h4⟩ := cropSlice_bounds (nonzeroCols_pairwise a) hcol
  exact ⟨h1, h2, h3, h4⟩

theorem nonzeroCols_eq_nil_of_nonzeroRows_eq_nil {a : Grid Bool}
    (hr : nonzeroRows a = []) : nonzeroCols a = [] := by
  rw [List.eq_nil_iff_forall_not_mem]
  intro x hx
  obtain ⟨hxw, hcol⟩ := mem_nonzeroCols.mp hx
  obtain ⟨y, hyh, hd⟩ := colHasTrue_iff.mp hcol
  have : y ∈ nonzeroRows a := mem_nonzeroRows.mpr ⟨hyh, rowHasTrue_iff.mpr ⟨x, hxw, hd⟩⟩
  rw [hr] at this
  simp at this

theorem cropSlice_nil : cropSlice [] = (0, 0) := rfl

theorem cropMask_fst (a : Grid Bool) : (cropMask a).1 = cropSlice (nonzeroRows a) := rfl

theorem cropMask_snd (a : Grid Bool) : (cropMask a).2 = cropSlice (nonzeroCols a) := rfl

theorem croppedGrid_height (a : Grid Bool) :
    (croppedGrid a).height = (cropMask a).1.2 - (cropMask a).1.1 := rfl

theorem croppedGrid_width (a : Grid Bool) :
    (croppedGrid a).width = (cropMask a).2.2 - (cropMask a).2.1 := rfl

theorem croppedGrid_data (a : Grid Bool) (dy dx : Nat) :
    (croppedGrid a).data dy dx =
      a.data ((cropMask a).1.1 + dy) ((cropMask a).2.1 + dx) := rfl

theorem nonzeroRows_eq_nil_of_nonzeroCols_eq_nil {a : Grid Bool}
    (hc : nonzeroCols a = []) : nonzeroRows a = [] := by
  rw [List.eq_nil_iff_forall_not_mem]
  intro y hy
  obtain ⟨hyh, hrow⟩ := mem_nonzeroRows.mp hy
  obtain ⟨x, hxw, hd⟩ := rowHasTrue_iff.mp hrow
  have : x ∈ nonzeroCols a := mem_nonzeroCols.mpr ⟨hxw, colHasTrue_iff.mpr ⟨y, hyh, hd⟩⟩
  rw [hc] at this
  simp at this

theorem croppedGrid_rowHasTrue (a : Grid Bool) {y : Nat} (hy : y ∈ nonzeroRows a) :
    rowHasTrue (croppedGrid a) (y - (cropMask a).1.1) = true := by
  obtain ⟨hyh, hrow⟩ := mem_nonzeroRows.mp hy
  obtain ⟨x, hxw, hd⟩ := rowHasTrue_iff.mp hrow
  obtain ⟨b1, b2, b3, b4⟩ := crop_contains hyh hxw hd
  apply rowHasTrue_iff.mpr
  refine ⟨x - (cropMask a).2.1, ?_, ?_⟩
  · rw [croppedGrid_width]
    omega
  · rw [croppedGrid_data]
    have e1 : (cropMask a).1.1 + (y - (cropMask a).1.1) = y := by omega
    have e2 : (cropMask a).2.1 + (x - (cropMask a).2.1) = x := by omega
    rw [e1, e2]
    exact hd

theorem croppedGrid_colHasTrue (a : Grid Bool) {x : Nat} (hx : x ∈ nonzeroCols a) :
    colHasTrue (croppedGrid a) (x - (cropMask a).2.1) = true := by
  obtain ⟨hxw, hcol⟩ := mem_nonzeroCols.mp hx
  obtain ⟨y, hyh, hd⟩ := colHasTrue_iff.mp hcol
  obtain ⟨b1, b2, b3, b4⟩ := crop_contains hyh hxw hd
  apply colHasTrue_iff.mpr
  refine ⟨y - (cropMask a).1.1, ?_, ?_⟩
  · rw [croppedGrid_height]
    omega
  · rw [croppedGrid_data]
    have e1 : (cropMask a).1.1 + (y - (cropMask a).1.1) = y := by omega
    have e2 : (cropMask a).2.1 + (x - (cropMask a).2.1) = x := by omega
    rw [e1, e2]
    exact hd

theorem isTight_croppedGrid (a : Grid Bool) : IsTight (croppedGrid a) := by
  by_cases hr : nonzeroRows a = []
  · left
    have hc := nonzeroCols_eq_nil_of_nonzeroRows_eq_nil hr
    rw [croppedGrid_height, croppedGrid_width]
    unfold cropMask
    rw [hr, hc, cropSlice_nil]
    exact ⟨rfl, rfl⟩
  · right
    have hc : nonzeroCols a ≠ [] := fun hc => hr (nonzeroRows_eq_nil_of_nonzeroCols_eq_nil hc)
    obtain ⟨hy0, hy1, hy1pos⟩ := cropSlice_ends_mem hr
    obtain ⟨hx0, hx1, hx1pos⟩ := cropSlice_ends_mem hc
    obtain ⟨hby1, hby2⟩ := cropSlice_bounds (nonzeroRows_pairwise a) hy1
    obtain ⟨hbx1, hbx2⟩ := cropSlice_bounds (nonzeroCols_pairwise a) hx1
    have hrow0 := croppedGrid_rowHasTrue a hy0
    have hrow1 := croppedGrid_rowHasTrue a hy1
    have hcol0 := croppedGrid_colHasTrue a hx0
    have hcol1 := croppedGrid_colHasTrue a hx1
    simp only [cropMask_fst, cropMask_snd] at hrow0 hrow1 hcol0 hcol1
    rw [Nat.sub_self] at hrow0 hcol0
    have eh : (cropSlice (nonzeroRows a)).2 - 1 - (cropSlice (nonzeroRows a)).1 =
        (croppedGrid a).height - 1 := by
      rw [croppedGrid_height, cropMask_fst]
      omega
    have ew : (cropSlice (nonzeroCols a)).2 - 1 - (cropSlice (nonzeroCols a)).1 =
        (croppedGrid a).width - 1 := by
      rw [croppedGrid_width, cropMask_snd]
      omega
    rw [eh] at hrow1
    rw [ew] at hcol1
    refine ⟨?_, ?_, hrow0, hrow1, hcol0, hcol1⟩
    · rw [croppedGrid_height, cropMask_fst]
      omega
    · rw [croppedGrid_width, cropMask_snd]
      omega

theorem fill_height {α : Type} (m : Grid Bool) (off : Nat × Nat) (v : α) (img : Grid α) :
    (fillFromMask m off v img).height = img.height := rfl

theorem fill_width {α : Type} (m : Grid Bool) (off : Nat × Nat) (v : α) (img : Grid α) :
    (fillFromMask m off v img).width = img.width := rfl

theorem fill_true_data (m : Grid Bool) (off : Nat × Nat) (H W y x : Nat) :
    (fillFromMask m off true (constGrid H W false)).data y x = true ↔
      (off.1 ≤ y ∧ y < off.1 + m.height ∧ off.2 ≤ x ∧ x < off.2 + m.width ∧
        m.data (y - off.1) (x - off.2) = true) := by
  simp only [fillFromMask, constGrid]
  split
  · simp_all
  · simp_all

theorem painted_rowHasTrue (m : Grid Bool) (oy ox H W y : Nat)
    (hfitx : ox + m.width ≤ W) :
    rowHasTrue (fillFromMask m (oy, ox) true (constGrid H W false)) y = true ↔
      (oy ≤ y ∧ y < oy + m.height ∧ rowHasTrue m (y - oy) = true) := by
  rw [rowHasTrue_iff]
  constructor
  · rintro ⟨x, _, hd⟩
    rw [fill_true_data] at hd
    obtain ⟨h1, h2, h3, h4, h5⟩ := hd
    refine ⟨h1, h2, rowHasTrue_iff.mpr ⟨x - ox, by omega, h5⟩⟩
  · rintro ⟨h1, h2, hrow⟩
    obtain ⟨x', hx', hd⟩ := rowHasTrue_iff.mp hrow
    refine ⟨ox + x', ?_, ?_⟩
    · rw [fill_width]
      show ox + x' < W
      omega
    · rw [fill_true_data]
      refine ⟨h1, h2, by omega, by omega, ?_⟩
      have e : ox + x' - ox = x' := by omega
      rw [e]
      exact hd

theorem painted_colHasTrue (m : Grid Bool) (oy ox H W x : Nat)
    (hfity : oy + m.height ≤ H) :
    colHasTrue (fillFromMask m (oy, ox) true (constGrid H W false)) x = true ↔
      (ox ≤ x ∧ x < ox + m.width ∧ colHasTrue m (x - ox) = true) := by
  rw [colHasTrue_iff]
  constructor
  · rintro ⟨y, _, hd⟩
    rw [fill_true_data] at hd
    obtain ⟨h1, h2, h3, h4, h5⟩ := hd
    refine ⟨h3, h4, colHasTrue_iff.mpr ⟨y - oy, by omega, h5⟩⟩
  · rintro ⟨h1, h2, hcol⟩
    obtain ⟨y', hy', hd⟩ := colHasTrue_iff.mp hcol
    refine ⟨oy + y', ?_, ?_⟩
    · rw [fill_height]
      show oy + y' < H
      omega
    · rw [fill_true_data]
      refine ⟨by omega, by omega, h1, h2, ?_⟩
      have e1 : oy + y' - oy = y' := by omega
      have e2 : x - ox = x - ox := rfl
      rw [e1]
      exact hd

theorem cropMask_painted (m : Grid Bool) (oy ox H W : Nat)
    (hh : 0 < m.height) (hw : 0 < m.width)
    (hr0 : rowHasTrue m 0 = true) (hr1 : rowHasTrue m (m.height - 1) = true)
    (hc0 : colHasTrue m 0 = true) (hc1 : colHasTrue m (m.width - 1) = true)
    (hfity : oy + m.height ≤ H) (hfitx : ox + m.width ≤ W) :
    cropMask (fillFromMask m (oy, ox) true (constGrid H W false)) =
      ((oy, oy + m.height), (ox, ox + m.width)) := by
  set P := fillFromMask m (oy, ox) true (constGrid H W false) with hP
  have hPh : P.height = H := rfl
  have hPw : P.width = W := rfl
  have hmemrow : ∀ y, y ∈ nonzeroRows P ↔ (oy ≤ y ∧ y < oy + m.height ∧
      rowHasTrue m (y - oy) = true) := by
    intro y
    rw [mem_nonzeroRows, hPh, hP, painted_rowHasTrue m oy ox H W y hfitx]
    constructor
    · exact fun h => h.2
    · rintro ⟨h1, h2, h3⟩
      exact ⟨by omega, h1, h2, h3⟩
  have hmemcol : ∀ x, x ∈ nonzeroCols P ↔ (ox ≤ x ∧ x < ox + m.width ∧
      colHasTrue m (x - ox) = true) := by
    intro x
    rw [mem_nonzeroCols, hPw, hP, painted_colHasTrue m oy ox H W x hfity]
    constructor
    · exact fun h => h.2
    · rintro ⟨h1, h2, h3⟩
      exact ⟨by omega, h1, h2, h3⟩
  have hheadr : (nonzeroRows P).head? = some oy := by
    apply head?_eq_of_pairwise (nonzeroRows_pairwise P)
    · rw [hmemrow]
      refine ⟨Nat.le_refl _, by omega, ?_⟩
      rw [Nat.sub_self]
      exact hr0
    · intro y hy
      exact ((hmemrow y).mp hy).1
  have hlastr : (nonzeroRows P).getLast? = some (oy + m.height - 1) := by
    apply getLast?_eq_of_pairwise (nonzeroRows_pairwise P)
    · rw [hmemrow]
      refine ⟨by omega, by omega, ?_⟩
      have e : oy + m.height - 1 - oy = m.height - 1 := by omega
      rw [e]
      exact hr1
    · intro y hy
      have := ((hmemrow y).mp hy).2.1
      omega
  have hheadc : (nonzeroCols P).head? = some ox := by
    apply head?_eq_of_pairwise (nonzeroCols_pairwise P)
    · rw [hmemcol]
      refine ⟨Nat.le_refl _, by omega, ?_⟩
      rw [Nat.sub_self]
      exact hc0
    · intro x hx
      exact ((hmemcol x).mp hx).1
  have hlastc : (nonzeroCols P).getLast? = some (ox + m.width - 1) := by
    apply getLast?_eq_of_pairwise (nonzeroCols_pairwise P)
    · rw [hmemcol]
      refine ⟨by omega, by omega, ?_⟩
      have e : ox + m.width - 1 - ox = m.width - 1 := by omega
      rw [e]
      exact hc1
    · intro x hx
      have := ((hmemcol x).mp hx).2.1
      omega
  show (cropSlice (nonzeroRows P), cropSlice (nonzeroCols P)) = _
  unfold cropSlice
  rw [hheadr, hlastr, hheadc, hlastc]
  have e1 : oy + m.height - 1 + 1 = oy + m.height := by omega
  have e2 : ox + m.width - 1 + 1 = ox + m.width := by omega
  simp [e1, e2]

theorem painted_empty_data (m : Grid Bool) (oy ox H W : Nat) (h0 : m.height = 0)
    (y x : Nat) :
    (fillFromMask m (oy, ox) true (constGrid H W false)).data y x = false := by
  cases hbe : (fillFromMask m (oy, ox) true (constGrid H W false)).data y x
  · rfl
  · exfalso
    have h := (fill_true_data m (oy, ox) H W y x).mp hbe
    omega

theorem cropMask_painted_empty (m : Grid Bool) (oy ox H W : Nat) (h0 : m.height = 0) :
    cropMask (fillFromMask m (oy, ox) true (constGrid H W false)) = ((0, 0), (0, 0)) := by
  have hrows : nonzeroRows (fillFromMask m (oy, ox) true (constGrid H W false)) = [] := by
    rw [List.eq_nil_iff_forall_not_mem]
    intro y hy
    obtain ⟨_, hrow⟩ := mem_nonzeroRows.mp hy
    obtain ⟨x, _, hd⟩ := rowHasTrue_iff.mp hrow
    rw [painted_empty_data m oy ox H W h0] at hd
    exact Bool.false_ne_true hd
  have hcols := nonzeroCols_eq_nil_of_nonzeroRows_eq_nil hrows
  show (cropSlice _, cropSlice _) = _
  rw [hrows, hcols, cropSlice_nil]

theorem cropMask_of_isTight (m : Grid Bool) (ht : IsTight m) :
    cropMask m = ((0, m.height), (0, m.width)) := by
  rcases ht with ⟨hh, hw⟩ | ⟨hh, hw, hr0, hr1, hc0, hc1⟩
  · have hrows : nonzeroRows m = [] := by
      unfold nonzeroRows
      rw [hh]
      rfl
    have hcols : nonzeroCols m = [] := by
      unfold nonzeroCols
      rw [hw]
      rfl
    show (cropSlice _, cropSlice _) = _
    rw [hrows, hcols, cropSlice_nil, hh, hw]
  · have hheadr : (nonzeroRows m).head? = some 0 := by
      apply head?_eq_of_pairwise (nonzeroRows_pairwise m)
      · exact mem_nonzeroRows.mpr ⟨hh, hr0⟩
      · intro y _
        exact Nat.zero_le y
    have hlastr : (nonzeroRows m).getLast? = some (m.height - 1) := by
      apply getLast?_eq_of_pairwise (nonzeroRows_pairwise m)
      · exact mem_nonzeroRows.mpr ⟨by omega, hr1⟩
      · intro y hy
        have := (mem_nonzeroRows.mp hy).1
        omega
    have hheadc : (nonzeroCols m).head? = some 0 := by
      apply head?_eq_of_pairwise (nonzeroCols_pairwise m)
      · exact mem_nonzeroCols.mpr ⟨hw, hc0⟩
      · intro x _
        exact Nat.zero_le x
    have hlastc : (nonzeroCols m).getLast? = some (m.width - 1) := by
      apply getLast?_eq_of_pairwise (nonzeroCols_pairwise m)
      · exact mem_nonzeroCols.mpr ⟨by omega, hc1⟩
      · intro x hx
        have := (mem_nonzeroCols.mp hx).1
        omega
    show (cropSlice _, cropSlice _) = _
    unfold cropSlice
    rw [hheadr, hlastr, hheadc, hlastc]
    have e1 : m.height - 1 + 1 = m.height := by omega
    have e2 : m.width - 1 + 1 = m.width := by omega
    simp [e1, e2]

theorem recrop_painted_nonempty (m : Grid Bool) (oy ox H W : Nat)
    (hh : 0 < m.height) (hw : 0 < m.width)
    (hr0 : rowHasTrue m 0 = true) (hr1 : rowHasTrue m (m.height - 1) = true)
    (hc0 : colHasTrue m 0 = true) (hc1 : colHasTrue m (m.width - 1) = true)
    (hfity : oy + m.height ≤ H) (hfitx : ox + m.width ≤ W) :
    (croppedGrid (fillFromMask m (oy, ox) true (constGrid H W false))).EqOn m := by
  have hcm := cropMask_painted m oy ox H W hh hw hr0 hr1 hc0 hc1 hfity hfitx
  have hheight : (croppedGrid (fillFromMask m (oy, ox) true
      (constGrid H W false))).height = m.height := by
    rw [croppedGrid_height, hcm]
    show oy + m.height - oy = m.height
    omega
  have hwidth : (croppedGrid (fillFromMask m (oy, ox) true
      (constGrid H W false))).width = m.width := by
    rw [croppedGrid_width, hcm]
    show ox + m.width - ox = m.width
    omega
  refine ⟨hheight, hwidth, ?_⟩
  intro y hy x hx
  rw [hheight] at hy
  rw [hwidth] at hx
  rw [croppedGrid_data, hcm]
  show (fillFromMask m (oy, ox) true (constGrid H W false)).data (oy + y) (ox + x) =
    m.data y x
  have e1 : oy + y - oy = y := by omega
  have e2 : ox + x - ox = x := by omega
  cases hmd : m.data y x
  · cases hpd : (fillFromMask m (oy, ox) true (constGrid H W false)).data (oy + y) (ox + x)
    · rfl
    · exfalso
      have hc := (fill_true_data m (oy, ox) H W (oy + y) (ox + x)).mp hpd
      rw [show ((oy, ox) : Nat × Nat).1 = oy from rfl,
        show ((oy, ox) : Nat × Nat).2 = ox from rfl] at hc
      rw [e1, e2] at hc
      rw [hmd] at hc
      exact Bool.false_ne_true hc.2.2.2.2
  · apply (fill_true_data m (oy, ox) H W (oy + y) (ox + x)).mpr
    refine ⟨by omega, by omega, by omega, by omega, ?_⟩
    rw [show ((oy, ox) : Nat × Nat).1 = oy from rfl,
      show ((oy, ox) : Nat × Nat).2 = ox from rfl, e1, e2]
    exact hmd

theorem foldl_grow {α : Type} (g : Nat → α → Nat) (hg : ∀ a b, a ≤ g a b) :
    ∀ (l : List α) (a : Nat), a ≤ l.foldl g a := by
  intro l
  induction l with
  | nil => exact fun a => Nat.le_refl a
  | cons b t ih => exact fun a => Nat.le_trans (hg a b) (ih (g a b))

theorem foldl_grow_mem {α : Type} (g : Nat → α → Nat) (hg : ∀ a b, a ≤ g a b)
    {l : List α} {b : α} (hb : b ∈ l) {v : Nat} (hv : ∀ a, v ≤ g a b) :
    ∀ a, v ≤ l.foldl g a := by
  induction l with
  | nil => simp at hb
  | cons c t ih =>
    intro a
    rcases List.mem_cons.mp hb with rfl | h
    · exact Nat.le_trans (hv a) (foldl_grow g hg t (g a b))
    · exact ih h (g a c)

theorem data_le_maxVal (L : Grid Nat) {y x : Nat} (hy : y < L.height) (hx : x < L.width) :
    L.data y x ≤ maxVal L := by
  unfold maxVal
  have hinner_grow : ∀ (a : Nat) (yy : Nat),
      a ≤ (List.range L.width).foldl (fun acc2 xx => max acc2 (L.data yy xx)) a :=
    fun a yy => foldl_grow _ (fun _ _ => Nat.le_max_left _ _) _ a
  apply foldl_grow_mem _ (fun a b => hinner_grow a b) (List.mem_range.mpr hy)
  intro a
  apply foldl_grow_mem _ (fun _ _ => Nat.le_max_left _ _) (List.mem_range.mpr hx)
  intro a2
  exact Nat.le_max_right _ _

theorem hasLabel_iff {L : Grid Nat} {v : Nat} :
    hasLabel L v = true ↔ ∃ y, y < L.height ∧ ∃ x, x < L.width ∧ L.data y x = v := by
  simp [hasLabel, List.any_eq_true, List.mem_range]

theorem mem_labelValues {L : Grid Nat} {v : Nat} :
    v ∈ labelValues L ↔ v ≠ 0 ∧ hasLabel L v = true := by
  unfold labelValues
  rw [List.mem_filter, List.mem_range]
  constructor
  · rintro ⟨_, h⟩
    simpa using h
  · rintro ⟨h1, h2⟩
    refine ⟨?_, by simp [h1, h2]⟩
    obtain ⟨y, hy, x, hx, hd⟩ := hasLabel_iff.mp h2
    have := data_le_maxVal L hy hx
    omega

theorem labelValues_pairwise (L : Grid Nat) : (labelValues L).Pairwise (· < ·) :=
  (List.pairwise_lt_range _).filter _

theorem labelValues_nodup (L : Grid Nat) : (labelValues L).Nodup :=
  (labelValues_pairwise L).imp (fun h => Nat.ne_of_lt h)

theorem fill_data_covers {α : Type} (md : MaskData) (v : α) (img : Grid α) (y x : Nat)
    (h : md.Covers y x) :
    (fillFromMask md.binary_mask md.offsets v img).data y x = v := by
  unfold MaskData.Covers at h
  show (if _ then v else img.data y x) = v
  rw [if_pos h]

theorem fill_data_not_covers {α : Type} (md : MaskData) (v : α) (img : Grid α) (y x : Nat)
    (h : ¬ md.Covers y x) :
    (fillFromMask md.binary_mask md.offsets v img).data y x = img.data y x := by
  unfold MaskData.Covers at h
  show (if _ then v else img.data y x) = img.data y x
  rw [if_neg h]

theorem foldPaint_height (pairs : List (Nat × MaskData)) (base : Grid Nat) :
    (foldPaint pairs base).height = base.height := by
  induction pairs generalizing base with
  | nil => rfl
  | cons p t ih => exact ih _

theorem foldPaint_width (pairs : List (Nat × MaskData)) (base : Grid Nat) :
    (foldPaint pairs base).width = base.width := by
  induction pairs generalizing base with
  | nil => rfl
  | cons p t ih => exact ih _

theorem foldPaint_not_covered (pairs : List (Nat × MaskData)) (base : Grid Nat)
    (y x : Nat) (h : ∀ p ∈ pairs, ¬ p.2.Covers y x) :
    (foldPaint pairs base).data y x = base.data y x := by
  induction pairs generalizing base with
  | nil => rfl
  | cons p t ih =>
    show (foldPaint t _).data y x = _
    rw [ih _ (fun q hq => h q (List.mem_cons_of_mem p hq))]
    exact fill_data_not_covers p.2 _ base y x (h p (List.mem_cons_self p t))

theorem foldPaint_covered (pairs : List (Nat × MaskData)) (base : Grid Nat)
    (y x : Nat) (i : Nat) (q : Nat × MaskData)
    (hi : pairs.get? i = some q) (hc : q.2.Covers y x)
    (hafter : ∀ j q2, i < j → pairs.get? j = some q2 → ¬ q2.2.Covers y x) :
    (foldPaint pairs base).data y x = (q.1 + 1) % 2 ^ 16 := by
  induction pairs generalizing base i with
  | nil => simp at hi
  | cons p t ih =>
    cases i with
    | zero =>
      have hpq : p = q := by simpa using hi
      show (foldPaint t _).data y x = _
      rw [foldPaint_not_covered t _ y x
        (fun q2 hq2 => by
          obtain ⟨j, hj⟩ := List.get?_of_mem hq2
          exact hafter (j + 1) q2 (Nat.succ_pos j) (by simpa using hj))]
      rw [hpq]
      exact fill_data_covers q.2 _ base y x hc
    | succ i2 =>
      simp only [List.get?_cons_succ] at hi
      exact ih _ i2 hi
        (fun j q2 hj hq2 => hafter (j + 1) q2 (by omega) (by simpa using hq2))

theorem nearestCode_eq_none_iff (metric : List Rat → List Rat → Rat)
    (codes : List (String × List Rat)) (v : List Rat) :
    nearestCode metric codes v = none ↔ codes = [] := by
  cases codes with
  | nil => simp [nearestCode]
  | cons c rest =>
    rw [nearestCode]
    cases hrec : nearestCode metric rest v with
    | none => simp
    | some bd =>
      constructor
      · intro h
        have h2 : (if metric v c.2 ≤ bd.2 then some (c.1, metric v c.2) else some bd) =
            none := h
        by_cases hd : metric v c.2 ≤ bd.2
        · rw [if_pos hd] at h2
          exact absurd h2 (by simp)
        · rw [if_neg hd] at h2
          exact absurd h2 (by simp)
      · intro h
        simp at h

theorem nearestCode_le (metric : List Rat → List Rat → Rat)
    {codes : List (String × List Rat)} {v : List Rat} {td : String × Rat}
    (h : nearestCode metric codes v = some td) :
    ∀ c ∈ codes, td.2 ≤ metric v c.2 := by
  induction codes generalizing td with
  | nil => simp [nearestCode] at h
  | cons c rest ih =>
    rw [nearestCode] at h
    intro c2 hc2
    cases hrec : nearestCode metric rest v with
    | none =>
      rw [hrec] at h
      have h2 : some (c.1, metric v c.2) = some td := h
      simp only [Option.some.injEq] at h2
      have hrest : rest = [] := (nearestCode_eq_none_iff metric rest v).mp hrec
      subst hrest
      rcases List.mem_cons.mp hc2 with rfl | hmem
      · rw [← h2]
      · simp at hmem
    | some bd =>
      rw [hrec] at h
      have h2 : (if metric v c.2 ≤ bd.2 then some (c.1, metric v c.2) else some bd) =
          some td := h
      have hle := ih hrec
      by_cases hd : metric v c.2 ≤ bd.2
      · rw [if_pos hd] at h2
        simp only [Option.some.injEq] at h2
        rcases List.mem_cons.mp hc2 with rfl | hmem
        · rw [← h2]
        · rw [← h2]
          exact le_trans hd (hle c2 hmem)
      · rw [if_neg hd] at h2
        simp only [Option.some.injEq] at h2
        subst h2
        rcases List.mem_cons.mp hc2 with rfl | hmem
        · exact le_of_lt (lt_of_not_le hd)
        · exact hle c2 hmem

theorem nearestCode_mem (metric : List Rat → List Rat → Rat)
    {codes : List (String × List Rat)} {v : List Rat} {td : String × Rat}
    (h : nearestCode metric codes v = some td) :
    ∃ c ∈ codes, c.1 = td.1 ∧ metric v c.2 = td.2 := by
  induction codes generalizing td with
  | nil => simp [nearestCode] at h
  | cons c rest ih =>
    rw [nearestCode] at h
    cases hrec : nearestCode metric rest v with
    | none =>
      rw [hrec] at h
      have h2 : some (c.1, metric v c.2) = some td := h
      simp only [Option.some.injEq] at h2
      exact ⟨c, List.mem_cons_self c rest, by rw [← h2], by rw [← h2]⟩
    | some bd =>
      rw [hrec] at h
      have h2 : (if metric v c.2 ≤ bd.2 then some (c.1, metric v c.2) else some bd) =
          some td := h
      by_cases hd : metric v c.2 ≤ bd.2
      · rw [if_pos hd] at h2
        simp only [Option.some.injEq] at h2
        exact ⟨c, List.mem_cons_self c rest, by rw [← h2], by rw [← h2]⟩
      · rw [if_neg hd] at h2
        simp only [Option.some.injEq] at h2
        subst h2
        obtain ⟨c2, hmem, ha, hb⟩ := ih hrec
        exact ⟨c2, List.mem_cons_of_mem c hmem, ha, hb⟩

theorem area_intersects_iff (a b : Area) :
    a.intersects b = true ↔
      (b.min_x ≤ a.max_x ∧ a.min_x ≤ b.max_x ∧ b.min_y ≤ a.max_y ∧ a.min_y ≤ b.max_y) := by
  simp [Area.intersects, not_lt, and_assoc]

theorem cropMask_of_allFalse {g : Grid Bool}
    (h : ∀ y x, y < g.height → x < g.width → g.data y x = false) :
    cropMask g = ((0, 0), (0, 0)) := by
  have hrows : nonzeroRows g = [] := by
    rw [List.eq_nil_iff_forall_not_mem]
    intro y hy
    obtain ⟨hyh, hrow⟩ := mem_nonzeroRows.mp hy
    obtain ⟨x, hxw, hd⟩ := rowHasTrue_iff.mp hrow
    rw [h y x hyh hxw] at hd
    exact Bool.false_ne_true hd
  have hcols := nonzeroCols_eq_nil_of_nonzeroRows_eq_nil hrows
  show (cropSlice _, cropSlice _) = _
  rw [hrows, hcols, cropSlice_nil]

theorem fromBinaryArrays_ok (a0 : PyArray) (rest : List PyArray) (qy qx : List Rat)
    (log : Log)
    (hshape : allSameShape (a0 :: rest) = true)
    (hdtype : (a0 :: rest).any (fun a => a.dtype ≠ .bool) = false)
    (hqy : qy.length = a0.height) (hqx : qx.length = a0.width) :
    BinaryMaskCollection.fromBinaryArraysAndTicks (a0 :: rest) none none
        (some qy) (some qx) log =
      .ok ⟨List.range qy.length, List.range qx.length, qy, qx,
        (a0 :: rest).map (fun a =>
          MaskData.mk (applySlices a.toGrid (cropMask a.toGrid).1 (cropMask a.toGrid).2)
            ((cropMask a.toGrid).1.1, (cropMask a.toGrid).2.1) none), log⟩ := by
  unfold BinaryMaskCollection.fromBinaryArraysAndTicks
  rw [if_neg (by simp [hshape]), if_neg (by rw [hdtype]; exact Bool.false_ne_true)]
  simp only [Option.getD_some, Option.getD_none, Option.isSome_some, List.isEmpty_cons,
    List.headD_cons]
  rw [if_neg (by simp)]
  rw [if_neg (by decide), if_neg (by omega), if_neg (by omega)]
  unfold BinaryMaskCollection.build
  rw [if_neg (by simp), if_neg (by simp)]

theorem openTargz_toTargz_masks (c : BinaryMaskCollection) :
    (BinaryMaskCollection.openTargz c.toTargz).masks =
      c.masks.map (fun md => MaskData.mk md.binary_mask md.offsets none) := by
  show ((c.masks.map _).zip (c.masks.map _)).map _ = _
  rw [List.zip_map' (fun md : MaskData => md.binary_mask) (fun md : MaskData => md.offsets),
    List.map_map]
  rfl

theorem fromLabelImage_ok (li : LabelImage)
    (hy : li.pixel_ticks_y.length = li.physical_ticks_y.length)
    (hx : li.pixel_ticks_x.length = li.physical_ticks_x.length) :
    BinaryMaskCollection.fromLabelImage li = .ok
      ⟨li.pixel_ticks_y, li.pixel_ticks_x, li.physical_ticks_y, li.physical_ticks_x,
        (regionpropsModel li.array).map (fun p =>
          MaskData.mk p.image (p.bbox.1, p.bbox.2.1) (some (.one p))), li.log⟩ := by
  unfold BinaryMaskCollection.fromLabelImage BinaryMaskCollection.build
  rw [if_neg (by omega), if_neg (by omega)]

theorem formatMask_ok {c : BinaryMaskCollection} {i : Int} {md : MaskData}
    (hmd : dictGet c.masks i = some md) :
    c.formatMaskAsXarray i = .ok
      { data := md.binary_mask
        pixel_ticks_y := pySlice c.pixel_ticks_y md.offsets.1
          (md.offsets.1 + md.binary_mask.height)
        pixel_ticks_x := pySlice c.pixel_ticks_x md.offsets.2
          (md.offsets.2 + md.binary_mask.width)
        physical_ticks_y := pySlice c.physical_ticks_y md.offsets.1
          (md.offsets.1 + md.binary_mask.height)
        physical_ticks_x := pySlice c.physical_ticks_x md.offsets.2
          (md.offsets.2 + md.binary_mask.width) } := by
  unfold BinaryMaskCollection.formatMaskAsXarray
  rw [hmd]

theorem pySlice_zero_width {α : Type} (l : List α) (a : Nat) : pySlice l a a = [] := by
  simp [pySlice]

theorem painted_data_eq_of_zero_offsets (md : MaskData) (H W y x : Nat)
    (hy : y < md.binary_mask.height) (hx : x < md.binary_mask.width)
    (hoy : md.offsets.1 = 0) (hox : md.offsets.2 = 0) :
    (fillFromMask md.binary_mask md.offsets true (constGrid H W false)).data y x =
      md.binary_mask.data y x := by
  have hoff : md.offsets = (0, 0) := by
    have he := Prod.mk.eta (p := md.offsets)
    rw [hoy, hox] at he
    exact he.symm
  rw [hoff]
  cases hmd : md.binary_mask.data y x
  · cases hpd : (fillFromMask md.binary_mask (0, 0) true (constGrid H W false)).data y x
    · rfl
    · exfalso
      have hc := (fill_true_data md.binary_mask (0, 0) H W y x).mp hpd
      simp only [Nat.sub_zero] at hc
      rw [hmd] at hc
      exact Bool.false_ne_true hc.2.2.2.2
  · apply (fill_true_data md.binary_mask (0, 0) H W y x).mpr
    refine ⟨Nat.zero_le y, by omega, Nat.zero_le x, by omega, ?_⟩
    simp only [Nat.sub_zero]
    exact hmd

theorem regionprops_eq (L : Grid Nat) :
    regionpropsModel L = (labelValues L).map (propOfLabel L) := rfl

theorem labelMasks_eq (L : Grid Nat) :
    labelMasks L = (labelValues L).map (maskOfLabel L) := by
  unfold labelMasks
  rw [regionprops_eq, List.map_map]
  rfl

theorem maskOfLabel_covers_iff (L : Grid Nat) (v y x : Nat) (hy : y < L.height)
    (hx : x < L.width) :
    (maskOfLabel L v).Covers y x ↔ L.data y x = v := by
  show ((cropMask (indicator L v)).1.1 ≤ y ∧
      y < (cropMask (indicator L v)).1.1 + (croppedGrid (indicator L v)).height ∧
      (cropMask (indicator L v)).2.1 ≤ x ∧
      x < (cropMask (indicator L v)).2.1 + (croppedGrid (indicator L v)).width ∧
      (croppedGrid (indicator L v)).data (y - (cropMask (indicator L v)).1.1)
        (x - (cropMask (indicator L v)).2.1) = true) ↔ L.data y x = v
  constructor
  · rintro ⟨h1, h2, h3, h4, h5⟩
    rw [croppedGrid_data] at h5
    have e1 : (cropMask (indicator L v)).1.1 + (y - (cropMask (indicator L v)).1.1) = y := by
      omega
    have e2 : (cropMask (indicator L v)).2.1 + (x - (cropMask (indicator L v)).2.1) = x := by
      omega
    rw [e1, e2] at h5
    have h6 : (L.data y x == v) = true := h5
    exact eq_of_beq h6
  · intro hd
    have hind : (indicator L v).data y x = true := by
      show (L.data y x == v) = true
      simp [hd]
    obtain ⟨b1, b2, b3, b4⟩ := crop_contains (a := indicator L v) hy hx hind
    refine ⟨b1, ?_, b3, ?_, ?_⟩
    · show y < (cropMask (indicator L v)).1.1 + (croppedGrid (indicator L v)).height
      rw [croppedGrid_height]
      omega
    · show x < (cropMask (indicator L v)).2.1 + (croppedGrid (indicator L v)).width
      rw [croppedGrid_width]
      omega
    · rw [croppedGrid_data]
      have e1 : (cropMask (indicator L v)).1.1 + (y - (cropMask (indicator L v)).1.1) = y := by
        omega
      have e2 : (cropMask (indicator L v)).2.1 + (x - (cropMask (indicator L v)).2.1) = x := by
        omega
      rw [e1, e2]
      exact hind

theorem enumFrom_get? {α : Type} :
    ∀ (l : List α) (n j : Nat),
      (List.enumFrom n l).get? j = (l.get? j).map (fun a => (n + j, a)) := by
  intro l
  induction l with
  | nil =>
    intro n j
    simp
  | cons a t ih =>
    intro n j
    cases j with
    | zero => simp
    | succ j2 =>
      show (List.enumFrom (n + 1) t).get? j2 = (t.get? j2).map (fun a => (n + (j2 + 1), a))
      rw [ih (n + 1) j2]
      have e : n + 1 + j2 = n + (j2 + 1) := by omega
      rw [e]

theorem pairwise_lt_eq_of_mem_iff :
    ∀ {l1 l2 : List Nat}, l1.Pairwise (· < ·) → l2.Pairwise (· < ·) →
      (∀ v, v ∈ l1 ↔ v ∈ l2) → l1 = l2 := by
  intro l1
  induction l1 with
  | nil =>
    intro l2 _ _ hmem
    cases l2 with
    | nil => rfl
    | cons b t2 =>
      exfalso
      have := (hmem b).mpr (List.mem_cons_self b t2)
      simp at this
  | cons a t1 ih =>
    intro l2 hp1 hp2 hmem
    cases l2 with
    | nil =>
      exfalso
      have := (hmem a).mp (List.mem_cons_self a t1)
      simp at this
    | cons b t2 =>
      have hab : a = b := by
        have ha2 : a ∈ b :: t2 := (hmem a).mp (List.mem_cons_self a t1)
        have hb1 : b ∈ a :: t1 := (hmem b).mpr (List.mem_cons_self b t2)
        rcases List.mem_cons.mp ha2 with h1 | h1
        · exact h1
        · rcases List.mem_cons.mp hb1 with h2 | h2
          · exact h2.symm
          · have hba := (List.pairwise_cons.mp hp2).1 a h1
            have hab := (List.pairwise_cons.mp hp1).1 b h2
            omega
      subst hab
      have htails : t1 = t2 := by
        apply ih (List.pairwise_cons.mp hp1).2 (List.pairwise_cons.mp hp2).2
        intro v
        constructor
        · intro hv
          have hlt := (List.pairwise_cons.mp hp1).1 v hv
          rcases List.mem_cons.mp ((hmem v).mp (List.mem_cons_of_mem a hv)) with h1 | h1
          · omega
          · exact h1
        · intro hv
          have hlt := (List.pairwise_cons.mp hp2).1 v hv
          rcases List.mem_cons.mp ((hmem v).mpr (List.mem_cons_of_mem a hv)) with h1 | h1
          · omega
          · exact h1
      rw [htails]

theorem roundtrip_value (L : Grid Nat) (K : Nat)
    (hlv : labelValues L = (List.range K).map (· + 1))
    (base : Grid Nat) (hbase : ∀ y x, base.data y x = 0)
    (y x : Nat) (hy : y < L.height) (hx : x < L.width) :
    (foldPaint (labelMasks L).enum base).data y x = L.data y x % 2 ^ 16 := by
  have hmasks : labelMasks L = ((List.range K).map (· + 1)).map (maskOfLabel L) := by
    rw [labelMasks_eq, hlv]
  have hget : ∀ j, j < K →
      (labelMasks L).enum.get? j = some (j, maskOfLabel L (j + 1)) := by
    intro j hj
    show (List.enumFrom 0 (labelMasks L)).get? j = _
    rw [enumFrom_get?, hmasks, List.map_map, List.get?_map, List.get?_range hj]
    simp
  have hlen : (labelMasks L).length = K := by
    rw [hmasks, List.length_map, List.length_map, List.length_range]
  have hmem_shape : ∀ q, q ∈ (labelMasks L).enum → ∃ j, j < K ∧
      q = (j, maskOfLabel L (j + 1)) := by
    intro q hq
    obtain ⟨j, hj⟩ := List.get?_of_mem hq
    have hjlen : j < K := by
      have : j < (labelMasks L).enum.length := (List.get?_eq_some.mp hj).1
      rw [List.enum_length, hlen] at this
      exact this
    rw [hget j hjlen] at hj
    exact ⟨j, hjlen, (Option.some.injEq _ _ ▸ hj).symm⟩
  cases hv : Nat.decEq (L.data y x) 0 with
  | isTrue hz =>
    have hnc : ∀ q ∈ (labelMasks L).enum, ¬ q.2.Covers y x := by
      intro q hq hcov
      obtain ⟨j, _, rfl⟩ := hmem_shape q hq
      have := (maskOfLabel_covers_iff L (j + 1) y x hy hx).mp hcov
      omega
    rw [foldPaint_not_covered _ _ _ _ hnc, hbase, hz, Nat.zero_mod]
  | isFalse hnz =>
    have hmem : L.data y x ∈ labelValues L :=
      mem_labelValues.mpr ⟨hnz, hasLabel_iff.mpr ⟨y, hy, x, hx, rfl⟩⟩
    rw [hlv, List.mem_map] at hmem
    obtain ⟨j, hjr, hjv⟩ := hmem
    have hjK : j < K := List.mem_range.mp hjr
    have hcov : (maskOfLabel L (j + 1)).Covers y x :=
      (maskOfLabel_covers_iff L (j + 1) y x hy hx).mpr (by omega)
    have hafter : ∀ j2 q2, j < j2 → (labelMasks L).enum.get? j2 = some q2 →
        ¬ q2.2.Covers y x := by
      intro j2 q2 hlt hj2 hcov2
      have hj2K : j2 < K := by
        by_contra hge
        rw [List.get?_eq_none.mpr (by rw [List.enum_length, hlen]; omega)] at hj2
        exact Option.noConfusion hj2
      rw [hget j2 hj2K] at hj2
      have hq2 : q2 = (j2, maskOfLabel L (j2 + 1)) := (Option.some.injEq _ _ ▸ hj2).symm
      subst hq2
      have := (maskOfLabel_covers_iff L (j2 + 1) y x hy hx).mp hcov2
      omega
    rw [foldPaint_covered _ _ _ _ j (j, maskOfLabel L (j + 1)) (hget j hjK) hcov hafter]
    have : L.data y x = j + 1 := by omega
    rw [this]

theorem toLabelImage_ok (c : BinaryMaskCollection)
    (hqy : c.physical_ticks_y.length = c.pixel_ticks_y.length)
    (hqx : c.physical_ticks_x.length = c.pixel_ticks_x.length) :
    c.toLabelImage = .ok
      ⟨foldPaint c.masks.enum (constGrid c.pixel_ticks_y.length c.pixel_ticks_x.length 0),
        c.pixel_ticks_y, c.pixel_ticks_x, c.physical_ticks_y, c.physical_ticks_x,
        c.log⟩ := by
  show LabelImage.fromLabelArrayAndTicks
    (foldPaint c.masks.enum (constGrid c.pixel_ticks_y.length c.pixel_ticks_x.length 0))
    (some c.pixel_ticks_y) (some c.pixel_ticks_x)
    c.physical_ticks_y c.physical_ticks_x c.log = _
  have hH : (foldPaint c.masks.enum
      (constGrid c.pixel_ticks_y.length c.pixel_ticks_x.length 0)).height =
      c.pixel_ticks_y.length := foldPaint_height _ _
  have hW : (foldPaint c.masks.enum
      (constGrid c.pixel_ticks_y.length c.pixel_ticks_x.length 0)).width =
      c.pixel_ticks_x.length := foldPaint_width _ _
  unfold LabelImage.fromLabelArrayAndTicks
  rw [if_neg (by rw [hH]; omega), if_neg (by rw [hW]; omega)]
  rfl

end Lemmas

section ClaimTheorems

/-- C5 counterexample: the claim says two Areas that merely touch along an
edge are reported as not intersecting, but find_intersection on the touching
rectangles with y-ranges 0..1 and 1..2 (the configuration of tables 0 and 3
of the repository's overlap test) returns the degenerate Area(0, 1, 1, 1)
rather than none. -/
theorem c5_counterexample :
    Area.findIntersection ⟨0, 1, 0, 1⟩ ⟨0, 1, 1, 2⟩ = some ⟨0, 1, 1, 1⟩ ∧
      Area.findIntersection ⟨0, 1, 0, 1⟩ ⟨0, 1, 1, 2⟩ ≠ none := by
  exact ⟨by decide, by decide⟩

/-- C5 (amended): find_intersection returns the overlap rectangle exactly
when the two Areas overlap on both axes as closed intervals (so a shared edge
produces a degenerate zero-width or zero-height Area rather than none), and
returns none exactly when some axis projection is disjoint; in particular the
two concrete examples of the claim hold. -/
theorem c5_area_intersection :
    (∀ a b : Area, (∃ r, Area.findIntersection a b = some r) ↔
      (b.min_x ≤ a.max_x ∧ a.min_x ≤ b.max_x ∧ b.min_y ≤ a.max_y ∧ a.min_y ≤ b.max_y)) ∧
    (∀ a b r, Area.findIntersection a b = some r →
      r = ⟨max a.min_x b.min_x, min a.max_x b.max_x,
           max a.min_y b.min_y, min a.max_y b.max_y⟩) ∧
    Area.findIntersection ⟨0, 2, 0, 2⟩ ⟨1, 2, 1, 3⟩ = some ⟨1, 2, 1, 2⟩ ∧
    Area.findIntersection ⟨0, 2, 0, 2⟩ ⟨3, 5, 3, 5⟩ = none := by
  refine ⟨?_, ?_, by decide, by decide⟩
  · intro a b
    unfold Area.findIntersection
    by_cases h : a.intersects b = true
    · rw [if_pos h]
      simp only [Option.some.injEq, exists_eq']
      exact Iff.intro (fun _ => (area_intersects_iff a b).mp h) (fun _ => trivial)
    · rw [if_neg h]
      simp only [reduceCtorEq, exists_false, false_iff]
      intro hc
      exact h ((area_intersects_iff a b).mpr hc)
  · intro a b r h
    unfold Area.findIntersection at h
    by_cases hi : a.intersects b = true
    · rw [if_pos hi] at h
      exact (Option.some.injEq _ _ ▸ h).symm
    · rw [if_neg hi] at h
      exact absurd h (by simp)

/-- C5 witness: the amended characterization applied at the claim's first
concrete example. -/
theorem c5_area_intersection_witness :
    (⟨1, 2, 1, 2⟩ : Area) = ⟨max (0 : Rat) 1, min (2 : Rat) 2,
      max (0 : Rat) 1, min (2 : Rat) 2⟩ :=
  c5_area_intersection.2.1 ⟨0, 2, 0, 2⟩ ⟨1, 2, 1, 3⟩ ⟨1, 2, 1, 2⟩ (by decide)

/-- C7 counterexample: accessing a mask by an index outside 0..len-1 fails,
but with a KeyError (the mask map is a dict keyed by 0..len-1), not an
IndexError as the claim states. -/
theorem c7_counterexample :
    sampleCollection.getItem 2 = .error .keyError ∧
      (Except.error .keyError : Except PyError MaskView) ≠ .error .indexError := by
  refine ⟨rfl, fun h => ?_⟩
  exact PyError.noConfusion (Except.error.inj h)

/-- C7 (amended): accessing a mask by an index outside 0..len-1 fails with a
key error (a dict lookup miss, not an index error); for every index inside
the range, the returned mask carries the mask pixels together with the pixel
and physical ticks sliced to the mask's offset plus extent. -/
theorem c7_mask_access (c : BinaryMaskCollection) (i : Int) :
    (¬ (0 ≤ i ∧ i.toNat < c.masks.length) → c.getItem i = .error .keyError) ∧
    (∀ md, c.masks.get? i.toNat = some md → 0 ≤ i →
      c.getItem i = .ok
        { data := md.binary_mask
          pixel_ticks_y :=
            pySlice c.pixel_ticks_y md.offsets.1 (md.offsets.1 + md.binary_mask.height)
          pixel_ticks_x :=
            pySlice c.pixel_ticks_x md.offsets.2 (md.offsets.2 + md.binary_mask.width)
          physical_ticks_y :=
            pySlice c.physical_ticks_y md.offsets.1 (md.offsets.1 + md.binary_mask.height)
          physical_ticks_x :=
            pySlice c.physical_ticks_x md.offsets.2 (md.offsets.2 + md.binary_mask.width) }) := by
  constructor
  · intro h
    show c.formatMaskAsXarray i = .error .keyError
    unfold BinaryMaskCollection.formatMaskAsXarray
    have hd : dictGet c.masks i = none := by
      unfold dictGet
      by_cases hneg : i < 0
      · rw [if_pos hneg]
      · rw [if_neg hneg]
        rw [List.get?_eq_none]
        omega
    rw [hd]
  · intro md hmd hpos
    show c.formatMaskAsXarray i = _
    unfold BinaryMaskCollection.formatMaskAsXarray
    have hd : dictGet c.masks i = some md := by
      unfold dictGet
      rw [if_neg (by omega)]
      exact hmd
    rw [hd]

/-- C7 witness: the amended access contract applied at the sample collection
and index 0. -/
theorem c7_mask_access_witness :
    sampleCollection.getItem 0 = .ok
      { data := sampleMask0.binary_mask
        pixel_ticks_y := pySlice sampleCollection.pixel_ticks_y sampleMask0.offsets.1
          (sampleMask0.offsets.1 + sampleMask0.binary_mask.height)
        pixel_ticks_x := pySlice sampleCollection.pixel_ticks_x sampleMask0.offsets.2
          (sampleMask0.offsets.2 + sampleMask0.binary_mask.width)
        physical_ticks_y := pySlice sampleCollection.physical_ticks_y sampleMask0.offsets.1
          (sampleMask0.offsets.1 + sampleMask0.binary_mask.height)
        physical_ticks_x := pySlice sampleCollection.physical_ticks_x sampleMask0.offsets.2
          (sampleMask0.offsets.2 + sampleMask0.binary_mask.width) } :=
  (c7_mask_access sampleCollection 0).2 sampleMask0 rfl (by decide)

/-- C8 counterexample: a single non-boolean array whose physical x-tick
length disagrees with the array extent is rejected with a TypeError, because
the dtype check runs before the tick-length check; the claim requires a value
error whenever a physical-tick length disagrees with the array extent. -/
theorem c8_counterexample :
    BinaryMaskCollection.fromBinaryArraysAndTicks [⟨.int32, 1, 1, fun _ _ => 0⟩]
        none none (some [0]) (some [0, 0]) ⟨[]⟩ = .error .typeError ∧
      (Except.error .typeError : Except PyError BinaryMaskCollection) ≠
        .error .valueError := by
  refine ⟨rfl, fun h => ?_⟩
  exact PyError.noConfusion (Except.error.inj h)

/-- C8 (amended): from_binary_arrays_and_ticks validates in a fixed order:
a shape mismatch across the arrays raises a value error first; otherwise any
non-boolean array raises a type error; otherwise a physical-tick length
disagreeing with the array extent on either axis raises a value error; and
for valid inputs an all-False array is cropped to a zero-length region on
every axis with offsets (0, 0). -/
theorem c8_from_binary_arrays_validation (arrays : List PyArray) (a0 : PyArray)
    (rest : List PyArray) (qy qx : List Rat) (log : Log) :
    (allSameShape arrays = false →
      BinaryMaskCollection.fromBinaryArraysAndTicks arrays none none (some qy) (some qx)
        log = .error .valueError) ∧
    (allSameShape arrays = true → arrays.any (fun a => a.dtype ≠ .bool) = true →
      BinaryMaskCollection.fromBinaryArraysAndTicks arrays none none (some qy) (some qx)
        log = .error .typeError) ∧
    (allSameShape (a0 :: rest) = true →
      (a0 :: rest).any (fun a => a.dtype ≠ .bool) = false →
      (qy.length ≠ a0.height ∨ qx.length ≠ a0.width) →
      BinaryMaskCollection.fromBinaryArraysAndTicks (a0 :: rest) none none (some qy)
        (some qx) log = .error .valueError) ∧
    (allSameShape (a0 :: rest) = true →
      (a0 :: rest).any (fun a => a.dtype ≠ .bool) = false →
      qy.length = a0.height → qx.length = a0.width →
      ∀ i a, (a0 :: rest).get? i = some a →
        (∀ y x, y < a.height → x < a.width → a.entry y x = 0) →
        ∃ c md, BinaryMaskCollection.fromBinaryArraysAndTicks (a0 :: rest) none none
            (some qy) (some qx) log = .ok c ∧
          c.masks.get? i = some md ∧ md.binary_mask.height = 0 ∧
          md.binary_mask.width = 0 ∧ md.offsets = (0, 0)) := by
  refine ⟨?_, ?_, ?_, ?_⟩
  · intro h1
    unfold BinaryMaskCollection.fromBinaryArraysAndTicks
    rw [if_pos h1]
  · intro h1 h2
    unfold BinaryMaskCollection.fromBinaryArraysAndTicks
    rw [if_neg (by simp [h1]), if_pos h2]
  · intro h1 h2 h3
    unfold BinaryMaskCollection.fromBinaryArraysAndTicks
    rw [if_neg (by simp [h1]), if_neg (by rw [h2]; exact Bool.false_ne_true)]
    simp only [Option.getD_some, Option.getD_none, Option.isSome_some, List.isEmpty_cons,
      List.headD_cons]
    rw [if_neg (by simp), if_neg (by decide)]
    by_cases hy : qy.length ≠ a0.height
    · rw [if_pos hy]
    · rw [if_neg hy]
      have hx : qx.length ≠ a0.width := by tauto
      rw [if_pos hx]
  · intro h1 h2 hqy hqx i a hia hzero
    have hcrop : cropMask a.toGrid = ((0, 0), (0, 0)) := by
      apply cropMask_of_allFalse
      intro y x hy hx
      show decide (a.entry y x ≠ 0) = false
      rw [hzero y x hy hx]
      simp
    refine ⟨_, MaskData.mk (applySlices a.toGrid (cropMask a.toGrid).1 (cropMask a.toGrid).2)
        ((cropMask a.toGrid).1.1, (cropMask a.toGrid).2.1) none,
      fromBinaryArrays_ok a0 rest qy qx log h1 h2 hqy hqx, ?_, ?_, ?_, ?_⟩
    · show (List.map (fun b =>
          MaskData.mk (applySlices b.toGrid (cropMask b.toGrid).1 (cropMask b.toGrid).2)
            ((cropMask b.toGrid).1.1, (cropMask b.toGrid).2.1) none) (a0 :: rest)).get? i = _
      rw [List.get?_map, hia]
      rfl
    · rw [hcrop]
      rfl
    · rw [hcrop]
      rfl
    · rw [hcrop]

/-- C8 witness: the amended validation contract applied to one valid
all-False boolean 2 by 2 array; its mask crops to a zero-length region on
both axes. -/
theorem c8_from_binary_arrays_validation_witness :
    ∃ c md, BinaryMaskCollection.fromBinaryArraysAndTicks
        [⟨.bool, 2, 2, fun _ _ => 0⟩] none none (some [0, 1]) (some [5, 6]) ⟨[]⟩ =
        .ok c ∧
      c.masks.get? 0 = some md ∧ md.binary_mask.height = 0 ∧
      md.binary_mask.width = 0 ∧ md.offsets = (0, 0) :=
  (c8_from_binary_arrays_validation [⟨.bool, 2, 2, fun _ _ => 0⟩]
      ⟨.bool, 2, 2, fun _ _ => 0⟩ [] [0, 1] [5, 6] ⟨[]⟩).2.2.2
    (by decide) (by decide) rfl rfl 0 ⟨.bool, 2, 2, fun _ _ => 0⟩ rfl
    (fun _ _ _ _ => rfl)

/-- C2: in the pixel/continuous decode, every cluster yields exactly one
output row (failures are kept with passes_thresholds false, never dropped and
never an error), and a row passes the thresholds iff its nearest-codeword
distance is at most distance_threshold (equivalently, some codeword lies
within the threshold), its magnitude is at least magnitude_threshold, and its
connected-component area lies in the inclusive range min_area..max_area. -/
theorem c2_pixel_decode_thresholds (metric : List Rat → List Rat → Rat)
    (norm : List Rat → Rat) (codes : List (String × List Rat))
    (params : PixelDecoderParams) (clusters : List PixelCluster) :
    (decodeClusters metric norm codes params clusters).length = clusters.length ∧
    (∀ i cl, clusters.get? i = some cl →
      ∃ d, (decodeClusters metric norm codes params clusters).get? i = some d ∧
        d.area = cl.pixels.length ∧ d.magnitude = norm cl.vector ∧
        (d.passes_thresholds = true ↔
          ((∃ c ∈ codes, metric cl.vector c.2 ≤ params.distance_threshold) ∧
            params.magnitude_threshold ≤ norm cl.vector ∧
            params.min_area ≤ cl.pixels.length ∧
            cl.pixels.length ≤ params.max_area))) := by
  constructor
  · exact List.length_map _ _
  · intro i cl hi
    have hd : (decodeClusters metric norm codes params clusters).get? i =
        some (decodeCluster metric norm codes params cl) := by
      unfold decodeClusters
      rw [List.get?_map, hi]
      rfl
    refine ⟨decodeCluster metric norm codes params cl, hd, ?_, ?_, ?_⟩
    · unfold decodeCluster
      cases hnc : nearestCode metric codes cl.vector
      · rfl
      · rfl
    · unfold decodeCluster
      cases hnc : nearestCode metric codes cl.vector
      · rfl
      · rfl
    · unfold decodeCluster
      cases hnc : nearestCode metric codes cl.vector with
      | none =>
        have hcodes : codes = [] := (nearestCode_eq_none_iff metric codes cl.vector).mp hnc
        subst hcodes
        show false = true ↔ _
        simp
      | some td =>
        show (decide (td.2 ≤ params.distance_threshold) &&
            decide (params.magnitude_threshold ≤ norm cl.vector) &&
            decide (params.min_area ≤ cl.pixels.length) &&
            decide (cl.pixels.length ≤ params.max_area)) = true ↔ _
        simp only [Bool.and_eq_true, decide_eq_true_eq]
        constructor
        · rintro ⟨⟨⟨h1, h2⟩, h3⟩, h4⟩
          obtain ⟨c, hc, _, hcd⟩ := nearestCode_mem metric hnc
          exact ⟨⟨c, hc, by rw [hcd]; exact h1⟩, h2, h3, h4⟩
        · rintro ⟨⟨c, hc, hcd⟩, h2, h3, h4⟩
          exact ⟨⟨⟨le_trans (nearestCode_le metric hnc c hc) hcd, h2⟩, h3⟩, h4⟩

/-- C2 witness: a concrete decode under the L1 metric with a boundary-area
cluster: the cluster's area exactly equals min_area and all three conditions
hold, so the row passes. -/
theorem c2_pixel_decode_thresholds_witness :
    ∃ d, (decodeClusters
        (fun v w => ((v.zip w).map (fun p => |p.1 - p.2|)).sum)
        (fun v => (v.map (fun q => |q|)).sum)
        [("geneA", [1, 0]), ("geneB", [0, 1])]
        ⟨1/2, 1/10, 2, 4⟩
        [⟨[1, 0], [(0, 0), (0, 1)]⟩]).get? 0 = some d ∧
      d.area = ([((0 : Nat), (0 : Nat)), (0, 1)] : List (Nat × Nat)).length ∧
      d.magnitude = (([1, 0] : List Rat).map (fun q => |q|)).sum ∧
      (d.passes_thresholds = true ↔
        ((∃ c ∈ [("geneA", ([1, 0] : List Rat)), ("geneB", [0, 1])],
            ((([1, 0] : List Rat).zip c.2).map (fun p => |p.1 - p.2|)).sum ≤ (1 : Rat)/2) ∧
          (1 : Rat)/10 ≤ (([1, 0] : List Rat).map (fun q => |q|)).sum ∧
          2 ≤ ([((0 : Nat), (0 : Nat)), (0, 1)] : List (Nat × Nat)).length ∧
          ([((0 : Nat), (0 : Nat)), (0, 1)] : List (Nat × Nat)).length ≤ 4)) :=
  (c2_pixel_decode_thresholds
      (fun v w => ((v.zip w).map (fun p => |p.1 - p.2|)).sum)
      (fun v => (v.map (fun q => |q|)).sum)
      [("geneA", [1, 0]), ("geneB", [0, 1])]
      ⟨1/2, 1/10, 2, 4⟩
      [⟨[1, 0], [(0, 0), (0, 1)]⟩]).2 0 ⟨[1, 0], [(0, 0), (0, 1)]⟩ rfl

/-- C6 counterexample: at the repository test's own input (table A with 10
rows of which 5 lie in the closed overlap, table B with 20 rows, B the
winner), the concatenated result does have 26 rows, but row (342, 342) of the
losing table A falls in the closed geometric overlap (scaled: Area(171, 342,
171, 342)) and is
kept even though it is not a row of the winning table B — contradicting the
claim that only the higher-priority table's rows survive inside the overlap
(indeed dropping all 5 of A's closed-overlap rows would leave 25, not the
claimed 26). -/
theorem c6_counterexample :
    tableArea tableA = some ⟨0, 342, 0, 342⟩ ∧
    tableArea tableB = some ⟨171, 342, 171, 513⟩ ∧
    Area.findIntersection ⟨0, 342, 0, 342⟩ ⟨171, 342, 171, 513⟩ =
      some ⟨171, 342, 171, 342⟩ ∧
    (tableA.filter
      (fun r => 171 ≤ r.xc && r.xc ≤ 342 && 171 ≤ r.yc && r.yc ≤ 342)).length = 5 ∧
    (concatenateTables [tableA, tableB] true).length = 26 ∧
    (⟨342, 342, 9⟩ : TableRow) ∈ concatenateTables [tableA, tableB] true ∧
    (⟨342, 342, 9⟩ : TableRow) ∈ tableA ∧
    ((171 : Rat) ≤ (342 : Rat) ∧ (342 : Rat) ≤ (342 : Rat)) ∧
    (⟨342, 342, 9⟩ : TableRow) ∉ tableB := by
  decide

/-- C6 (amended): concatenating two Feature Tables under take-max keeps every
row of the winning table, keeps every row of the losing table that is not
strictly inside the overlap rectangle (rows on the overlap boundary are
retained — which is how the 26-row count of the concrete example arises),
drops the losing table's strictly-interior rows, and on the concrete tables
of the test produces exactly 26 rows. -/
theorem c6_take_max_concatenation (t1 t2 : List TableRow) (a1 a2 ov : Area)
    (h1 : tableArea t1 = some a1) (h2 : tableArea t2 = some a2)
    (hov : Area.findIntersection a1 a2 = some ov)
    (hwin : (selAreaOfTable t1 ov).length < (selAreaOfTable t2 ov).length) :
    concatenateTables [t1, t2] true = removeAreaOfTable t1 ov ++ t2 ∧
    (∀ r ∈ t1, strictlyInside ov r = false → r ∈ concatenateTables [t1, t2] true) ∧
    (∀ r ∈ t2, r ∈ concatenateTables [t1, t2] true) ∧
    (∀ r, strictlyInside ov r = true → r ∉ removeAreaOfTable t1 ov) ∧
    (concatenateTables [t1, t2] true).length =
      (removeAreaOfTable t1 ov).length + t2.length ∧
    (concatenateTables [tableA, tableB] true).length = 26 := by
  have hcat : concatenateTables [t1, t2] true = removeAreaOfTable t1 ov ++ t2 := by
    unfold concatenateTables processOverlapsTakeMax
    rw [if_pos rfl]
    have hpair : pairIndices ([t1, t2] : List (List TableRow)).length = [(0, 1)] := rfl
    rw [hpair, List.foldl_cons, List.foldl_nil]
    simp only [List.getD_cons_zero, List.getD_cons_succ, h1, h2, hov]
    unfold takeMax
    rw [if_neg (Nat.not_le.mpr hwin)]
    simp [List.set]
  refine ⟨hcat, ?_, ?_, ?_, ?_, by decide⟩
  · intro r hr hout
    rw [hcat]
    apply List.mem_append_left
    exact List.mem_filter.mpr ⟨hr, by simp [hout]⟩
  · intro r hr
    rw [hcat]
    exact List.mem_append_right _ hr
  · intro r hin hmem
    have := (List.mem_filter.mp hmem).2
    simp [hin] at this
  · rw [hcat, List.length_append]

/-- C6 witness: the amended contract applied at the repository test's tables,
showing a concrete row of the winning table B survives concatenation. -/
theorem c6_take_max_concatenation_witness :
    (⟨171, 171, 100⟩ : TableRow) ∈ concatenateTables [tableA, tableB] true :=
  (c6_take_max_concatenation tableA tableB ⟨0, 342, 0, 342⟩ ⟨171, 342, 171, 513⟩
    ⟨171, 342, 171, 342⟩
    (by decide) (by decide) (by decide) (by decide)).2.2.1 ⟨171, 171, 100⟩ (by decide)

/-- C1: for a collection built from a label image, writing the archive and
reading it back reproduces the pixel and physical ticks, the log, the number
of masks, and for every mask index a pixel-identical cropped mask with
identical offsets. -/
theorem c1_save_load_roundtrip (li : LabelImage)
    (hy : li.pixel_ticks_y.length = li.physical_ticks_y.length)
    (hx : li.pixel_ticks_x.length = li.physical_ticks_x.length) :
    ∃ c, BinaryMaskCollection.fromLabelImage li = .ok c ∧
      (BinaryMaskCollection.openTargz c.toTargz).pixel_ticks_y = c.pixel_ticks_y ∧
      (BinaryMaskCollection.openTargz c.toTargz).pixel_ticks_x = c.pixel_ticks_x ∧
      (BinaryMaskCollection.openTargz c.toTargz).physical_ticks_y = c.physical_ticks_y ∧
      (BinaryMaskCollection.openTargz c.toTargz).physical_ticks_x = c.physical_ticks_x ∧
      (BinaryMaskCollection.openTargz c.toTargz).log = c.log ∧
      (BinaryMaskCollection.openTargz c.toTargz).masks.length = c.masks.length ∧
      (∀ i md, c.masks.get? i = some md →
        ∃ md2, (BinaryMaskCollection.openTargz c.toTargz).masks.get? i = some md2 ∧
          md2.binary_mask.EqOn md.binary_mask ∧ md2.offsets = md.offsets) := by
  refine ⟨_, fromLabelImage_ok li hy hx, rfl, rfl, rfl, rfl, rfl, ?_, ?_⟩
  · rw [openTargz_toTargz_masks]
    exact List.length_map _ _
  · intro i md hmd
    rw [openTargz_toTargz_masks, List.get?_map, hmd]
    exact ⟨_, rfl, Grid.EqOn.refl _, rfl⟩

/-- C1 witness: the round trip applied to the collection built from the
repository test's 5 by 5 label image. -/
theorem c1_save_load_roundtrip_witness :
    ∃ c, BinaryMaskCollection.fromLabelImage testLabelImage = .ok c ∧
      (BinaryMaskCollection.openTargz c.toTargz).pixel_ticks_y = c.pixel_ticks_y ∧
      (BinaryMaskCollection.openTargz c.toTargz).pixel_ticks_x = c.pixel_ticks_x ∧
      (BinaryMaskCollection.openTargz c.toTargz).physical_ticks_y = c.physical_ticks_y ∧
      (BinaryMaskCollection.openTargz c.toTargz).physical_ticks_x = c.physical_ticks_x ∧
      (BinaryMaskCollection.openTargz c.toTargz).log = c.log ∧
      (BinaryMaskCollection.openTargz c.toTargz).masks.length = c.masks.length ∧
      (∀ i md, c.masks.get? i = some md →
        ∃ md2, (BinaryMaskCollection.openTargz c.toTargz).masks.get? i = some md2 ∧
          md2.binary_mask.EqOn md.binary_mask ∧ md2.offsets = md.offsets) :=
  c1_save_load_roundtrip testLabelImage rfl rfl

/-- C9: mask_regionprops is deterministic and idempotent: a successful call
returns the properties together with a state on which a repeated call returns
the same properties and the same state; when the properties were cached at
construction they are returned unchanged, and when absent the call computes
regionprops of the full-frame raster holding just this mask painted with the
value mask_id + 1 (in a uint32 raster) and caches that result. -/
theorem c9_regionprops_idempotent (c : BinaryMaskCollection) (id : Int) (md : MaskData)
    (hmd : dictGet c.masks id = some md) :
    ∃ r c2, c.maskRegionprops id = .ok (r, c2) ∧
      c2.maskRegionprops id = .ok (r, c2) ∧
      (∀ p, md.region_properties = some p → r = p ∧ c2 = c) ∧
      (md.region_properties = none →
        r = .many (regionpropsModel (fillFromMask md.binary_mask md.offsets
          ((id.toNat + 1) % 2 ^ 32)
          (constGrid c.uncroppedShape.1 c.uncroppedShape.2 0))) ∧
        c2.masks = c.masks.set id.toNat
          ({ md with region_properties := some r })) := by
  have hpos : ¬ id < 0 := by
    by_contra hneg
    rw [dictGet, if_pos hneg] at hmd
    exact Option.noConfusion hmd
  have hget : c.masks.get? id.toNat = some md := by
    rw [dictGet, if_neg hpos] at hmd
    exact hmd
  have hlen : id.toNat < c.masks.length := by
    obtain ⟨h, _⟩ := List.get?_eq_some.mp hget
    exact h
  cases hcache : md.region_properties with
  | some p =>
    refine ⟨p, c, ?_, ?_, ?_, ?_⟩
    · unfold BinaryMaskCollection.maskRegionprops
      simp only [hmd, hcache]
    · unfold BinaryMaskCollection.maskRegionprops
      simp only [hmd, hcache]
    · intro p2 hp2
      cases hp2
      exact ⟨rfl, rfl⟩
    · intro hnone
      exact Option.noConfusion hnone
  | none =>
    set props : PropsCache := PropsCache.many (regionpropsModel (fillFromMask
      md.binary_mask md.offsets ((id.toNat + 1) % 2 ^ 32)
      (constGrid c.uncroppedShape.1 c.uncroppedShape.2 0))) with hprops
    set cnew : BinaryMaskCollection :=
      { c with
        masks := c.masks.set id.toNat (MaskData.mk md.binary_mask md.offsets (some props)) }
      with hcnew
    refine ⟨props, cnew, ?_, ?_, ?_, ?_⟩
    · unfold BinaryMaskCollection.maskRegionprops
      simp only [hmd, hcache]
    · unfold BinaryMaskCollection.maskRegionprops
      have hget2 : dictGet cnew.masks id =
          some (MaskData.mk md.binary_mask md.offsets (some props)) := by
        show dictGet (c.masks.set id.toNat
          (MaskData.mk md.binary_mask md.offsets (some props))) id = _
        rw [dictGet, if_neg hpos]
        exact List.get?_set_eq_of_lt _ hlen
      simp only [hget2]
    · intro p2 hp2
      exact Option.noConfusion hp2
    · intro _
      exact ⟨rfl, rfl⟩

/-- C9 witness: the idempotence contract applied at the sample collection's
first mask, whose properties are lazily computed. -/
theorem c9_regionprops_idempotent_witness :
    ∃ r c2, sampleCollection.maskRegionprops 0 = .ok (r, c2) ∧
      c2.maskRegionprops 0 = .ok (r, c2) ∧
      (∀ p, sampleMask0.region_properties = some p → r = p ∧ c2 = sampleCollection) ∧
      (sampleMask0.region_properties = none →
        r = .many (regionpropsModel (fillFromMask sampleMask0.binary_mask
          sampleMask0.offsets ((Int.toNat 0 + 1) % 2 ^ 32)
          (constGrid sampleCollection.uncroppedShape.1
            sampleCollection.uncroppedShape.2 0))) ∧
        c2.masks = sampleCollection.masks.set (Int.toNat 0)
          ({ sampleMask0 with region_properties := some r })) :=
  c9_regionprops_idempotent sampleCollection 0 sampleMask0 rfl

/-- C3: from_label_image on a label image with K distinct positive label
values produces exactly K masks, indexed 0..K-1 in ascending label order
(labelValues is exactly the set of positive values present, listed strictly
ascending), and mask i is the mask of the i-th smallest label cropped to the
tight bounding box of that label's pixels: every pixel of the label falls in
the offset window, the cropped pixels coincide with the label's indicator,
and the crop is tight. -/
theorem c3_from_label_image (li : LabelImage)
    (hy : li.pixel_ticks_y.length = li.physical_ticks_y.length)
    (hx : li.pixel_ticks_x.length = li.physical_ticks_x.length) :
    ∃ c, BinaryMaskCollection.fromLabelImage li = .ok c ∧
      c.masks.length = (labelValues li.array).length ∧
      (∀ v, v ∈ labelValues li.array ↔
        (0 < v ∧ ∃ y, y < li.array.height ∧ ∃ x, x < li.array.width ∧
          li.array.data y x = v)) ∧
      (labelValues li.array).Chain' (· < ·) ∧
      (∀ i v md, (labelValues li.array).get? i = some v → c.masks.get? i = some md →
        (∀ y x, y < li.array.height → x < li.array.width → li.array.data y x = v →
          (md.offsets.1 ≤ y ∧ y < md.offsets.1 + md.binary_mask.height ∧
            md.offsets.2 ≤ x ∧ x < md.offsets.2 + md.binary_mask.width)) ∧
        (∀ dy dx, dy < md.binary_mask.height → dx < md.binary_mask.width →
          (md.binary_mask.data dy dx = true ↔
            li.array.data (md.offsets.1 + dy) (md.offsets.2 + dx) = v)) ∧
        IsTight md.binary_mask) := by
  refine ⟨_, fromLabelImage_ok li hy hx, ?_, ?_, ?_, ?_⟩
  · show ((regionpropsModel li.array).map _).length = _
    rw [List.length_map]
    unfold regionpropsModel
    rw [List.length_map]
  · intro v
    rw [mem_labelValues, hasLabel_iff]
    constructor
    · rintro ⟨h1, h2⟩
      exact ⟨Nat.pos_of_ne_zero h1, h2⟩
    · rintro ⟨h1, h2⟩
      exact ⟨Nat.pos_iff_ne_zero.mp h1, h2⟩
  · exact (labelValues_pairwise li.array).chain'
  · intro i v md hv hmd
    have hmd2 : md = MaskData.mk (croppedGrid (indicator li.array v))
        ((cropMask (indicator li.array v)).1.1, (cropMask (indicator li.array v)).2.1)
        (some (.one ⟨v, ((cropMask (indicator li.array v)).1.1,
          (cropMask (indicator li.array v)).2.1, (cropMask (indicator li.array v)).1.2,
          (cropMask (indicator li.array v)).2.2), croppedGrid (indicator li.array v),
          ((List.range li.array.height).map fun y =>
            ((List.range li.array.width).filter
              fun x => li.array.data y x == v).length).sum⟩)) := by
      have : ((regionpropsModel li.array).map (fun p =>
          MaskData.mk p.image (p.bbox.1, p.bbox.2.1) (some (.one p)))).get? i =
          some md := hmd
      unfold regionpropsModel at this
      rw [List.map_map, List.get?_map, hv] at this
      simp only [Option.map_some', Option.some.injEq, Function.comp] at this
      exact this.symm
    subst hmd2
    refine ⟨?_, ?_, isTight_croppedGrid _⟩
    · intro y x hyh hxw hd
      have hind : (indicator li.array v).data y x = true := by
        show (li.array.data y x == v) = true
        simp [hd]
      obtain ⟨b1, b2, b3, b4⟩ := crop_contains (a := indicator li.array v) hyh hxw hind
      refine ⟨b1, ?_, b3, ?_⟩
      · show y < (cropMask (indicator li.array v)).1.1 + (croppedGrid _).height
        rw [croppedGrid_height]
        omega
      · show x < (cropMask (indicator li.array v)).2.1 + (croppedGrid _).width
        rw [croppedGrid_width]
        omega
    · intro dy dx _ _
      rw [croppedGrid_data]
      show (li.array.data _ _ == v) = true ↔ _
      simp

/-- C3 witness: the from_label_image contract applied to the repository
test's 5 by 5 label image with labels 1 and 2. -/
theorem c3_from_label_image_witness :
    ∃ c, BinaryMaskCollection.fromLabelImage testLabelImage = .ok c ∧
      c.masks.length = (labelValues testLabelImage.array).length ∧
      (∀ v, v ∈ labelValues testLabelImage.array ↔
        (0 < v ∧ ∃ y, y < testLabelImage.array.height ∧
          ∃ x, x < testLabelImage.array.width ∧ testLabelImage.array.data y x = v)) ∧
      (labelValues testLabelImage.array).Chain' (· < ·) ∧
      (∀ i v md, (labelValues testLabelImage.array).get? i = some v →
        c.masks.get? i = some md →
        (∀ y x, y < testLabelImage.array.height → x < testLabelImage.array.width →
          testLabelImage.array.data y x = v →
          (md.offsets.1 ≤ y ∧ y < md.offsets.1 + md.binary_mask.height ∧
            md.offsets.2 ≤ x ∧ x < md.offsets.2 + md.binary_mask.width)) ∧
        (∀ dy dx, dy < md.binary_mask.height → dx < md.binary_mask.width →
          (md.binary_mask.data dy dx = true ↔
            testLabelImage.array.data (md.offsets.1 + dy) (md.offsets.2 + dx) = v)) ∧
        IsTight md.binary_mask) :=
  c3_from_label_image testLabelImage rfl rfl

/-- C4: for a valid mask index whose mask is tight and fits in the frame (as
every builder-produced mask is), the uncropped form painted into the full
frame and re-cropped to its tight bounding box equals the original cropped
mask view exactly (pixels and sliced ticks); moreover the data returned by
uncropped_mask is exactly that painting, and when the cropped shape already
equals the full frame shape, uncropped_mask returns the same result as
mask(i) directly. -/
theorem c4_crop_uncrop_inverse (c : BinaryMaskCollection) (i : Int) (md : MaskData)
    (hmd : dictGet c.masks i = some md)
    (ht : IsTight md.binary_mask)
    (hfy : md.offsets.1 + md.binary_mask.height ≤ c.pixel_ticks_y.length)
    (hfx : md.offsets.2 + md.binary_mask.width ≤ c.pixel_ticks_x.length) :
    ∃ uv mv, c.uncroppedMask i = .ok uv ∧ c.getItem i = .ok mv ∧
      uv.data.EqOn (paintedFullFrame c md) ∧
      (recropView c (paintedFullFrame c md)).EqOn mv ∧
      (c.uncroppedShape = (md.binary_mask.height, md.binary_mask.width) →
        c.uncroppedMask i = c.formatMaskAsXarray i) := by
  have hfmt := formatMask_ok hmd
  have hpaintH : (paintedFullFrame c md).height = c.pixel_ticks_y.length := rfl
  have hpaintW : (paintedFullFrame c md).width = c.pixel_ticks_x.length := rfl
  have hpaint_eq : paintedFullFrame c md = fillFromMask md.binary_mask
      (md.offsets.1, md.offsets.2) true
      (constGrid c.uncroppedShape.1 c.uncroppedShape.2 false) := by
    unfold paintedFullFrame
    rw [Prod.mk.eta]
  have hrecrop : (recropView c (paintedFullFrame c md)).EqOn
      { data := md.binary_mask
        pixel_ticks_y := pySlice c.pixel_ticks_y md.offsets.1
          (md.offsets.1 + md.binary_mask.height)
        pixel_ticks_x := pySlice c.pixel_ticks_x md.offsets.2
          (md.offsets.2 + md.binary_mask.width)
        physical_ticks_y := pySlice c.physical_ticks_y md.offsets.1
          (md.offsets.1 + md.binary_mask.height)
        physical_ticks_x := pySlice c.physical_ticks_x md.offsets.2
          (md.offsets.2 + md.binary_mask.width) } := by
    rcases ht with ⟨hh0, hw0⟩ | ⟨hh, hw, hr0, hr1, hc0, hc1⟩
    · have hcm : cropMask (paintedFullFrame c md) = ((0, 0), (0, 0)) := by
        rw [hpaint_eq]
        exact cropMask_painted_empty md.binary_mask md.offsets.1 md.offsets.2
          c.uncroppedShape.1 c.uncroppedShape.2 hh0
      unfold recropView
      rw [hcm]
      refine ⟨⟨?_, ?_, ?_⟩, ?_, ?_, ?_, ?_⟩
      · show 0 - 0 = md.binary_mask.height
        omega
      · show 0 - 0 = md.binary_mask.width
        omega
      · intro y hy x hx
        exfalso
        revert hy
        show ¬ y < 0 - 0
        omega
      · simp [pySlice, hh0]
      · simp [pySlice, hw0]
      · simp [pySlice, hh0]
      · simp [pySlice, hw0]
    · have hcm : cropMask (paintedFullFrame c md) =
          ((md.offsets.1, md.offsets.1 + md.binary_mask.height),
            (md.offsets.2, md.offsets.2 + md.binary_mask.width)) := by
        rw [hpaint_eq]
        exact cropMask_painted md.binary_mask md.offsets.1 md.offsets.2
          c.uncroppedShape.1 c.uncroppedShape.2 hh hw hr0 hr1 hc0 hc1 hfy hfx
      have hdata : (applySlices (paintedFullFrame c md)
          (cropMask (paintedFullFrame c md)).1
          (cropMask (paintedFullFrame c md)).2).EqOn md.binary_mask := by
        have := recrop_painted_nonempty md.binary_mask md.offsets.1 md.offsets.2
          c.uncroppedShape.1 c.uncroppedShape.2 hh hw hr0 hr1 hc0 hc1 hfy hfx
        unfold croppedGrid at this
        rw [← hpaint_eq] at this
        exact this
      unfold recropView
      refine ⟨hdata, ?_, ?_, ?_, ?_⟩ <;> rw [hcm]
  by_cases hsh : c.uncroppedShape = (md.binary_mask.height, md.binary_mask.width)
  · have huncrop : c.uncroppedMask i = c.formatMaskAsXarray i := by
      unfold BinaryMaskCollection.uncroppedMask
      simp only [hmd]
      rw [if_pos hsh]
    have hlenY : c.pixel_ticks_y.length = md.binary_mask.height :=
      congrArg Prod.fst hsh
    have hlenX : c.pixel_ticks_x.length = md.binary_mask.width :=
      congrArg Prod.snd hsh
    refine ⟨_, _, by rw [huncrop, hfmt], hfmt, ?_, hrecrop, fun _ => huncrop⟩
    refine ⟨?_, ?_, ?_⟩
    · show md.binary_mask.height = c.pixel_ticks_y.length
      omega
    · show md.binary_mask.width = c.pixel_ticks_x.length
      omega
    · intro y hy x hx
      rw [hpaint_eq]
      exact (painted_data_eq_of_zero_offsets md c.uncroppedShape.1 c.uncroppedShape.2
        y x hy hx (by omega) (by omega)).symm
  · have huncrop : c.uncroppedMask i = .ok
        { data := paintedFullFrame c md
          pixel_ticks_y := c.pixel_ticks_y
          pixel_ticks_x := c.pixel_ticks_x
          physical_ticks_y := c.physical_ticks_y
          physical_ticks_x := c.physical_ticks_x } := by
      unfold BinaryMaskCollection.uncroppedMask
      simp only [hmd]
      rw [if_neg hsh]
      rfl
    refine ⟨_, _, huncrop, hfmt, Grid.EqOn.refl _, hrecrop, fun hc => absurd hc hsh⟩

/-- C4 witness: the crop/uncrop inverse applied at the sample collection's
second mask, a tight single-pixel mask offset to (1, 2) in a 2 by 3 frame. -/
theorem c4_crop_uncrop_inverse_witness :
    ∃ uv mv, sampleCollection.uncroppedMask 1 = .ok uv ∧
      sampleCollection.getItem 1 = .ok mv ∧
      uv.data.EqOn (paintedFullFrame sampleCollection sampleMask1) ∧
      (recropView sampleCollection
        (paintedFullFrame sampleCollection sampleMask1)).EqOn mv ∧
      (sampleCollection.uncroppedShape =
          (sampleMask1.binary_mask.height, sampleMask1.binary_mask.width) →
        sampleCollection.uncroppedMask 1 = sampleCollection.formatMaskAsXarray 1) :=
  c4_crop_uncrop_inverse sampleCollection 1 sampleMask1 rfl (by decide)
    (by decide) (by decide)

theorem roundtrip_paint_value (li : LabelImage) (K : Nat)
    (hlv : labelValues li.array = (List.range K).map (· + 1))
    (hty : li.pixel_ticks_y.length = li.physical_ticks_y.length)
    (htx : li.pixel_ticks_x.length = li.physical_ticks_x.length) :
    ∃ c li2, BinaryMaskCollection.fromLabelImage li = .ok c ∧
      c.toLabelImage = .ok li2 ∧
      li2.array.height = li.pixel_ticks_y.length ∧
      li2.array.width = li.pixel_ticks_x.length ∧
      ∀ y x, y < li.array.height → x < li.array.width →
        li2.array.data y x = li.array.data y x % 2 ^ 16 := by
  refine ⟨_, _, fromLabelImage_ok li hty htx, toLabelImage_ok _ ?_ ?_, ?_, ?_, ?_⟩
  · exact hty.symm
  · exact htx.symm
  · show (foldPaint (labelMasks li.array).enum
      (constGrid li.pixel_ticks_y.length li.pixel_ticks_x.length 0)).height =
      li.pixel_ticks_y.length
    rw [foldPaint_height]
    rfl
  · show (foldPaint (labelMasks li.array).enum
      (constGrid li.pixel_ticks_y.length li.pixel_ticks_x.length 0)).width =
      li.pixel_ticks_x.length
    rw [foldPaint_width]
    rfl
  · intro y x hy hx
    show (foldPaint (labelMasks li.array).enum
      (constGrid li.pixel_ticks_y.length li.pixel_ticks_x.length 0)).data y x =
      li.array.data y x % 2 ^ 16
    exact roundtrip_value li.array K hlv
      (constGrid li.pixel_ticks_y.length li.pixel_ticks_x.length 0)
      (fun _ _ => rfl) y x hy hx

/-- C10 counterexample: the claim quantifies over every K, but to_label_image
paints into a uint16 raster, so painted values wrap modulo 65536: on a label
image whose labels are exactly 1..65536 the round trip paints the pixel of
label 65536 with 65536 mod 65536 = 0 and does not reproduce the original
array. -/
theorem c10_counterexample :
    ∃ c li2, BinaryMaskCollection.fromLabelImage bigLabelImage = .ok c ∧
      c.toLabelImage = .ok li2 ∧
      bigLabelImage.array.data 65535 0 = 65536 ∧
      li2.array.data 65535 0 = 0 ∧
      ¬ li2.array.EqOn bigLabelImage.array := by
  have hlv : labelValues bigLabelGrid = (List.range 65536).map (· + 1) := by
    apply pairwise_lt_eq_of_mem_iff (labelValues_pairwise _)
    · exact (List.pairwise_lt_range 65536).map _ (fun a b h => Nat.add_lt_add_right h 1)
    · intro v
      rw [mem_labelValues, hasLabel_iff, List.mem_map]
      constructor
      · rintro ⟨_, y, hy, _, _, hd⟩
        exact ⟨y, List.mem_range.mpr hy, hd⟩
      · rintro ⟨j, hj, rfl⟩
        refine ⟨by omega, j, ?_, 0, ?_, rfl⟩
        · show j < 65536
          exact List.mem_range.mp hj
        · show (0 : Nat) < 1
          omega
  have hleny : bigLabelImage.pixel_ticks_y.length =
      bigLabelImage.physical_ticks_y.length := by
    simp only [bigLabelImage]
    rw [List.length_replicate, List.length_range]
  have hplen : bigLabelImage.pixel_ticks_y.length = 65536 := by
    simp only [bigLabelImage]
    rw [List.length_range]
  have hbig : bigLabelImage.array.data 65535 0 = 65536 := by
    show 65535 + 1 = 65536
    omega
  obtain ⟨c, li2, h1, h2, hh2, hw2, hval⟩ :=
    roundtrip_paint_value bigLabelImage 65536 hlv hleny rfl
  have h3 := hval 65535 0 (by show 65535 < 65536; omega) (by show (0 : Nat) < 1; omega)
  rw [hbig] at h3
  have hmod : (65536 : Nat) % 2 ^ 16 = 0 := by decide
  rw [hmod] at h3
  refine ⟨c, li2, h1, h2, hbig, h3, ?_⟩
  intro hEq
  obtain ⟨hh, hw, hdata⟩ := hEq
  have hy2 : (65535 : Nat) < li2.array.height := by
    rw [hh2, hplen]
    omega
  have hx2 : (0 : Nat) < li2.array.width := by
    rw [hw2]
    show (0 : Nat) < bigLabelImage.pixel_ticks_x.length
    simp only [bigLabelImage]
    rw [List.length_cons, List.length_nil]
    omega
  have hcontra := hdata 65535 hy2 0 hx2
  rw [h3, hbig] at hcontra
  exact absurd hcontra (by omega)

/-- C10 (amended): for every label image whose positive labels are exactly the
consecutive values 1..K with K at most 65535 (so that every painted value
i + 1 fits the uint16 raster without wrapping) and whose pixel ticks match the
array extents, converting it to a BinaryMaskCollection with from_label_image
and back with to_label_image reproduces the original label array exactly and
keeps all four tick lists. -/
theorem c10_label_roundtrip (li : LabelImage) (K : Nat)
    (hlv : labelValues li.array = (List.range K).map (· + 1))
    (hK : K ≤ 65535)
    (hleny : li.pixel_ticks_y.length = li.array.height)
    (hlenx : li.pixel_ticks_x.length = li.array.width)
    (hty : li.pixel_ticks_y.length = li.physical_ticks_y.length)
    (htx : li.pixel_ticks_x.length = li.physical_ticks_x.length) :
    ∃ c li2, BinaryMaskCollection.fromLabelImage li = .ok c ∧
      c.toLabelImage = .ok li2 ∧
      li2.array.EqOn li.array ∧
      li2.pixel_ticks_y = li.pixel_ticks_y ∧ li2.pixel_ticks_x = li.pixel_ticks_x ∧
      li2.physical_ticks_y = li.physical_ticks_y ∧
      li2.physical_ticks_x = li.physical_ticks_x := by
  refine ⟨_, _, fromLabelImage_ok li hty htx, toLabelImage_ok _ ?_ ?_,
    ?_, rfl, rfl, rfl, rfl⟩
  · exact hty.symm
  · exact htx.symm
  · show (foldPaint (labelMasks li.array).enum
      (constGrid li.pixel_ticks_y.length li.pixel_ticks_x.length 0)).EqOn li.array
    refine ⟨?_, ?_, ?_⟩
    · rw [foldPaint_height]
      exact hleny
    · rw [foldPaint_width]
      exact hlenx
    · intro y hy x hx
      rw [foldPaint_height] at hy
      rw [foldPaint_width] at hx
      have hy2 : y < li.array.height := by
        rw [← hleny]
        exact hy
      have hx2 : x < li.array.width := by
        rw [← hlenx]
        exact hx
      have hval := roundtrip_value li.array K hlv
        (constGrid li.pixel_ticks_y.length li.pixel_ticks_x.length 0)
        (fun _ _ => rfl) y x hy2 hx2
      refine hval.trans ?_
      apply Nat.mod_eq_of_lt
      have h216 : (2 : Nat) ^ 16 = 65536 := by norm_num
      rw [h216]
      by_cases h0 : li.array.data y x = 0
      · omega
      · have hv : li.array.data y x ∈ labelValues li.array :=
          mem_labelValues.mpr ⟨h0, hasLabel_iff.mpr ⟨y, hy2, x, hx2, rfl⟩⟩
        rw [hlv] at hv
        obtain ⟨j, hj, hjv⟩ := List.mem_map.mp hv
        have hjlt : j < K := List.mem_range.mp hj
        have hjv2 : j + 1 = li.array.data y x := hjv
        omega

/-- Witness for C10 at the repository's 5 by 5 test label image, whose labels
are exactly 1 and 2 (K = 2): the round trip reproduces the array and ticks. -/
theorem c10_label_roundtrip_witness :
    ∃ c li2, BinaryMaskCollection.fromLabelImage testLabelImage = .ok c ∧
      c.toLabelImage = .ok li2 ∧
      li2.array.EqOn testLabelImage.array ∧
      li2.pixel_ticks_y = testLabelImage.pixel_ticks_y ∧
      li2.pixel_ticks_x = testLabelImage.pixel_ticks_x ∧
      li2.physical_ticks_y = testLabelImage.physical_ticks_y ∧
      li2.physical_ticks_x = testLabelImage.physical_ticks_x :=
  c10_label_roundtrip testLabelImage 2 (by decide) (by decide) rfl rfl rfl rfl

end ClaimTheorems

end Starfish
